import Mathlib

/-! hash_server: a verification development

Shallow embedding of `hasher/hasher.go` and `hasher/server.go`.

Conventions of the embedding

* Go `int` is taken to be 64 bits wide (the width on every 64-bit platform), `int64` and
  `time.Duration` are 64-bit two's complement; values are Lean `Int`s and every arithmetic
  operation that can leave the range is followed by `wrapInt64`.
* A Go `string` is a Lean `String`; `[]byte(s)` is its UTF-8 encoding. `GenerateHashBytes`
  also covers the strings that are not valid UTF-8.
* A Go `(T, error)` result is a pair `T × Option String`, `none` standing for `nil` and
  `some msg` for an error whose `Error()` text is `msg`.
* `time.Now()` is an explicit argument of every operation that reads the clock; a `time.Time` is
  a number of nanoseconds on one time line.
* `map[int]string` is an association list with at most one entry per key.
-/

namespace hasher

/-! ## Machine integers -/

/-- Largest value of a 64-bit signed integer (`math.MaxInt64`, and `math.MaxInt` on 64 bits). -/
def maxInt64 : Int := 9223372036854775807

/-- Smallest value of a 64-bit signed integer (`math.MinInt64`). -/
def minInt64 : Int := -9223372036854775808

/-- Two's complement wrap-around of a mathematical integer into the 64-bit signed range:
what Go's `+`, `++` and `*` compute on `int`/`int64` operands. -/
def wrapInt64 (x : Int) : Int := (x + 9223372036854775808) % 18446744073709551616 - 9223372036854775808

/-- Membership in the 64-bit signed range. -/
def inInt64 (x : Int) : Prop := minInt64 ≤ x ∧ x ≤ maxInt64

instance (x : Int) : Decidable (inInt64 x) := by
  unfold inInt64; exact inferInstance

/-! ## `crypto/sha512` (FIPS 180-4) on 64-bit words held in `Nat` -/

/-- Number of values of a 64-bit word. -/
def word : Nat := 18446744073709551616

/-- Rotate a 64-bit word right by `n` bits. -/
def rotr (x n : Nat) : Nat := ((x >>> n) ||| (x <<< (64 - n))) % word

/-- Round constants of SHA-512 (FIPS 180-4, section 4.2.3), each written as its high and its
low 32 bits. -/
def sha512KHalves : List (Nat × Nat) :=
  [(0x428a2f98, 0xd728ae22), (0x71374491, 0x23ef65cd), (0xb5c0fbcf, 0xec4d3b2f),
   (0xe9b5dba5, 0x8189dbbc), (0x3956c25b, 0xf348b538), (0x59f111f1, 0xb605d019),
   (0x923f82a4, 0xaf194f9b), (0xab1c5ed5, 0xda6d8118), (0xd807aa98, 0xa3030242),
   (0x12835b01, 0x45706fbe), (0x243185be, 0x4ee4b28c), (0x550c7dc3, 0xd5ffb4e2),
   (0x72be5d74, 0xf27b896f), (0x80deb1fe, 0x3b1696b1), (0x9bdc06a7, 0x25c71235),
   (0xc19bf174, 0xcf692694), (0xe49b69c1, 0x9ef14ad2), (0xefbe4786, 0x384f25e3),
   (0x0fc19dc6, 0x8b8cd5b5), (0x240ca1cc, 0x77ac9c65), (0x2de92c6f, 0x592b0275),
   (0x4a7484aa, 0x6ea6e483), (0x5cb0a9dc, 0xbd41fbd4), (0x76f988da, 0x831153b5),
   (0x983e5152, 0xee66dfab), (0xa831c66d, 0x2db43210), (0xb00327c8, 0x98fb213f),
   (0xbf597fc7, 0xbeef0ee4), (0xc6e00bf3, 0x3da88fc2), (0xd5a79147, 0x930aa725),
   (0x06ca6351, 0xe003826f), (0x14292967, 0x0a0e6e70), (0x27b70a85, 0x46d22ffc),
   (0x2e1b2138, 0x5c26c926), (0x4d2c6dfc, 0x5ac42aed), (0x53380d13, 0x9d95b3df),
   (0x650a7354, 0x8baf63de), (0x766a0abb, 0x3c77b2a8), (0x81c2c92e, 0x47edaee6),
   (0x92722c85, 0x1482353b), (0xa2bfe8a1, 0x4cf10364), (0xa81a664b, 0xbc423001),
   (0xc24b8b70, 0xd0f89791), (0xc76c51a3, 0x0654be30), (0xd192e819, 0xd6ef5218),
   (0xd6990624, 0x5565a910), (0xf40e3585, 0x5771202a), (0x106aa070, 0x32bbd1b8),
   (0x19a4c116, 0xb8d2d0c8), (0x1e376c08, 0x5141ab53), (0x2748774c, 0xdf8eeb99),
   (0x34b0bcb5, 0xe19b48a8), (0x391c0cb3, 0xc5c95a63), (0x4ed8aa4a, 0xe3418acb),
   (0x5b9cca4f, 0x7763e373), (0x682e6ff3, 0xd6b2b8a3), (0x748f82ee, 0x5defb2fc),
   (0x78a5636f, 0x43172f60), (0x84c87814, 0xa1f0ab72), (0x8cc70208, 0x1a6439ec),
   (0x90befffa, 0x23631e28), (0xa4506ceb, 0xde82bde9), (0xbef9a3f7, 0xb2c67915),
   (0xc67178f2, 0xe372532b), (0xca273ece, 0xea26619c), (0xd186b8c7, 0x21c0c207),
   (0xeada7dd6, 0xcde0eb1e), (0xf57d4f7f, 0xee6ed178), (0x06f067aa, 0x72176fba),
   (0x0a637dc5, 0xa2c898a6), (0x113f9804, 0xbef90dae), (0x1b710b35, 0x131c471b),
   (0x28db77f5, 0x23047d84), (0x32caab7b, 0x40c72493), (0x3c9ebe0a, 0x15c9bebc),
   (0x431d67c4, 0x9c100d4c), (0x4cc5d4be, 0xcb3e42b6), (0x597f299c, 0xfc657e2a),
   (0x5fcb6fab, 0x3ad6faec), (0x6c44198c, 0x4a475817)]

/-- Round constants of SHA-512 as 64-bit words. -/
def sha512K : List Nat := sha512KHalves.map (fun hl => hl.1 * 4294967296 + hl.2)

/-- Chaining value of SHA-512: eight 64-bit words. -/
structure Digest where
  h0 : Nat
  h1 : Nat
  h2 : Nat
  h3 : Nat
  h4 : Nat
  h5 : Nat
  h6 : Nat
  h7 : Nat
  deriving DecidableEq, Repr

/-- Initial chaining value of SHA-512. -/
def sha512Init : Digest :=
  { h0 := 0x6a09e667 * 4294967296 + 0xf3bcc908,
    h1 := 0xbb67ae85 * 4294967296 + 0x84caa73b,
    h2 := 0x3c6ef372 * 4294967296 + 0xfe94f82b,
    h3 := 0xa54ff53a * 4294967296 + 0x5f1d36f1,
    h4 := 0x510e527f * 4294967296 + 0xade682d1,
    h5 := 0x9b05688c * 4294967296 + 0x2b3e6c1f,
    h6 := 0x1f83d9ab * 4294967296 + 0xfb41bd6b,
    h7 := 0x5be0cd19 * 4294967296 + 0x137e2179 }

/-- Big-endian value of a list of bytes. -/
def beValue (bs : List Nat) : Nat := bs.foldl (fun acc b => acc * 256 + b) 0

/-- The sixteen big-endian 64-bit words of a 128-byte block. -/
def blockWords : Nat → List Nat → List Nat
  | 0, _ => []
  | n + 1, p => beValue (p.take 8) :: blockWords n (p.drop 8)

/-- One step of the message schedule; `rev` holds the words computed so far, newest first, so
that `w[t-2]`, `w[t-7]`, `w[t-15]`, `w[t-16]` sit at positions 1, 6, 14, 15. -/
def scheduleNext (rev : List Nat) : Nat :=
  let v1 := rev.getD 1 0
  let t1 := (rotr v1 19 ^^^ rotr v1 61) ^^^ (v1 >>> 6)
  let v2 := rev.getD 14 0
  let t2 := (rotr v2 1 ^^^ rotr v2 8) ^^^ (v2 >>> 7)
  (t1 + rev.getD 6 0 + t2 + rev.getD 15 0) % word

/-- Extend the (reversed) message schedule by `n` words. -/
def scheduleExtend : Nat → List Nat → List Nat
  | 0, rev => rev
  | n + 1, rev => scheduleExtend n (scheduleNext rev :: rev)

/-- The eighty words of the message schedule of a block. -/
def schedule (p : List Nat) : List Nat :=
  (scheduleExtend 64 (blockWords 16 p).reverse).reverse

/-- One round of the compression function with round constant `k` and schedule word `w`. -/
def sha512Round (s : Digest) (k w : Nat) : Digest :=
  let t1 := (s.h7 + ((rotr s.h4 14 ^^^ rotr s.h4 18) ^^^ rotr s.h4 41)
              + ((s.h4 &&& s.h5) ^^^ ((s.h4 ^^^ (word - 1)) &&& s.h6)) + k + w) % word
  let t2 := (((rotr s.h0 28 ^^^ rotr s.h0 34) ^^^ rotr s.h0 39)
              + (((s.h0 &&& s.h1) ^^^ (s.h0 &&& s.h2)) ^^^ (s.h1 &&& s.h2))) % word
  { h0 := (t1 + t2) % word, h1 := s.h0, h2 := s.h1, h3 := s.h2,
    h4 := (s.h3 + t1) % word, h5 := s.h4, h6 := s.h5, h7 := s.h6 }

/-- The rounds of the compression function over paired constants and schedule words. -/
def sha512Rounds : Digest → List Nat → List Nat → Digest
  | s, k :: ks, w :: ws => sha512Rounds (sha512Round s k w) ks ws
  | s, _, _ => s

/-- Compression of one 128-byte block into the chaining value. -/
def sha512Block (d : Digest) (p : List Nat) : Digest :=
  let s := sha512Rounds d sha512K (schedule p)
  { h0 := (d.h0 + s.h0) % word, h1 := (d.h1 + s.h1) % word, h2 := (d.h2 + s.h2) % word,
    h3 := (d.h3 + s.h3) % word, h4 := (d.h4 + s.h4) % word, h5 := (d.h5 + s.h5) % word,
    h6 := (d.h6 + s.h6) % word, h7 := (d.h7 + s.h7) % word }

/-- Compression of `n` consecutive blocks. -/
def sha512Blocks : Nat → Digest → List Nat → Digest
  | 0, d, _ => d
  | n + 1, d, p => sha512Blocks n (sha512Block d (p.take 128)) (p.drop 128)

/-- The `n` low bytes of `x`, most significant first. -/
def beBytes : Nat → Nat → List Nat
  | 0, _ => []
  | n + 1, x => (x / 256 ^ n) % 256 :: beBytes n x

/-- Padding of a message of `len` bytes: `0x80`, zeros up to 112 modulo 128, then the length in
bits as a 128-bit big-endian number. -/
def sha512Padding (len : Nat) : List Nat :=
  let r := len % 128
  let t := if r < 112 then 112 - r else 240 - r
  0x80 :: List.replicate (t - 1) 0 ++ beBytes 16 ((8 * len) % 2 ^ 128)

/-- The 64 bytes of a chaining value. -/
def digestBytes (d : Digest) : List Nat :=
  beBytes 8 d.h0 ++ beBytes 8 d.h1 ++ beBytes 8 d.h2 ++ beBytes 8 d.h3 ++
  beBytes 8 d.h4 ++ beBytes 8 d.h5 ++ beBytes 8 d.h6 ++ beBytes 8 d.h7

/-- SHA-512 digest of a byte sequence (`sha512.Sum512`). -/
def Sum512 (data : List Nat) : List Nat :=
  let msg := data ++ sha512Padding data.length
  digestBytes (sha512Blocks (msg.length / 128) sha512Init msg)

/-! ## `encoding/base64` (RFC 4648, standard alphabet, padded) -/

/-- The standard Base64 alphabet. -/
def encodeStd : List Char := "ABCDEFGHIJKLMNOPQRSTUVWXYZabcdefghijklmnopqrstuvwxyz0123456789+/".data

/-- Character of a 6-bit value. -/
def base64Char (i : Nat) : Char := encodeStd.getD i 'A'

/-- Padded standard Base64 encoding of a byte sequence (`base64.StdEncoding.EncodeToString`). -/
def EncodeToString : List Nat → List Char
  | [] => []
  | [a] => [base64Char (a / 4), base64Char (a % 4 * 16), '=', '=']
  | [a, b] => [base64Char (a / 4), base64Char (a % 4 * 16 + b / 16), base64Char (b % 16 * 4), '=']
  | a :: b :: c :: rest =>
    base64Char (a / 4) :: base64Char (a % 4 * 16 + b / 16) :: base64Char (b % 16 * 4 + c / 64)
      :: base64Char (c % 64) :: EncodeToString rest

/-! ## `hasher.go` -/

/-- UTF-8 encoding of one character. -/
def utf8EncodeChar (c : Char) : List Nat :=
  let n := c.toNat
  if n < 0x80 then [n]
  else if n < 0x800 then [0xC0 + n / 64, 0x80 + n % 64]
  else if n < 0x10000 then [0xE0 + n / 4096, 0x80 + n / 64 % 64, 0x80 + n % 64]
  else [0xF0 + n / 262144, 0x80 + n / 4096 % 64, 0x80 + n / 64 % 64, 0x80 + n % 64]

/-- The bytes of a string (`[]byte(s)`). -/
def stringBytes (s : String) : List Nat := s.data.flatMap utf8EncodeChar

/-- `GenerateHash` on a Go string given as its bytes, whatever they are: SHA-512 of the bytes,
encoded as Base64. -/
def GenerateHashBytes (s : List Nat) : String :=
  let sha512Sum := Sum512 s
  let base64Str := String.mk (EncodeToString sha512Sum)
  base64Str

/-- `GenerateHash` on a string that is text: `GenerateHashBytes` of its UTF-8 bytes. -/
def GenerateHash (s : String) : String := GenerateHashBytes (stringBytes s)

/-! ### What the claim about `GenerateHash` says: SHA-512 as FIPS 180-4 states it, and the
decoder of RFC 4648 -/

/-- Addition modulo 2^64 (FIPS 180-4, section 3.2). -/
def fipsAdd (x y : Nat) : Nat := (x + y) % word

/-- `Ch(x, y, z)` (FIPS 180-4, 4.8). -/
def fipsCh (x y z : Nat) : Nat := (x &&& y) ^^^ ((x ^^^ (word - 1)) &&& z)

/-- `Maj(x, y, z)` (FIPS 180-4, 4.9). -/
def fipsMaj (x y z : Nat) : Nat := ((x &&& y) ^^^ (x &&& z)) ^^^ (y &&& z)

/-- The function written with a capital sigma and index 0 (FIPS 180-4, 4.10). -/
def fipsBigSigma0 (x : Nat) : Nat := (rotr x 28 ^^^ rotr x 34) ^^^ rotr x 39

/-- The function written with a capital sigma and index 1 (FIPS 180-4, 4.11). -/
def fipsBigSigma1 (x : Nat) : Nat := (rotr x 14 ^^^ rotr x 18) ^^^ rotr x 41

/-- The function written with a small sigma and index 0 (FIPS 180-4, 4.12). -/
def fipsSmallSigma0 (x : Nat) : Nat := (rotr x 1 ^^^ rotr x 8) ^^^ (x >>> 7)

/-- The function written with a small sigma and index 1 (FIPS 180-4, 4.13). -/
def fipsSmallSigma1 (x : Nat) : Nat := (rotr x 19 ^^^ rotr x 61) ^^^ (x >>> 6)

/-- Number of zero bytes of the padding of a message of `len` bytes: the smallest `z` with
`len + 1 + z` congruent to 112 modulo 128, which is FIPS 180-4, 5.1.2 counted in bytes (the bit
`1` and the first seven zero bits are the byte `0x80`). -/
def fipsZeroBytes (len : Nat) : Nat :=
  ((List.range 128).find? (fun z => (len + 1 + z) % 128 = 112)).getD 0

/-- The padded message (FIPS 180-4, 5.1.2): the message, the byte `0x80`, the zero bytes, and
the length of the message in bits as a 128-bit big-endian number. -/
def fipsPad (msg : List Nat) : List Nat :=
  msg ++ 0x80 :: List.replicate (fipsZeroBytes msg.length) 0
    ++ beBytes 16 ((8 * msg.length) % 2 ^ 128)

/-- Word `t` of block `i` of a padded message: eight bytes, most significant first. -/
def fipsBlockWord (msg : List Nat) (i t : Nat) : Nat :=
  beValue ((msg.drop (128 * i + 8 * t)).take 8)

/-- The words `W_0 .. W_(n-1)` of the message schedule of block `i` (FIPS 180-4, 6.4.2, step 1):
`W_t` is the word `t` of the block for `t < 16`, and
sigma1(`W_(t-2)`) + `W_(t-7)` + sigma0(`W_(t-15)`) + `W_(t-16)` after that. -/
def fipsSchedule (msg : List Nat) (i : Nat) : Nat → List Nat
  | 0 => []
  | t + 1 =>
    let w := fipsSchedule msg i t
    w ++ [if t < 16 then fipsBlockWord msg i t
          else fipsAdd (fipsAdd (fipsAdd (fipsSmallSigma1 (w.getD (t - 2) 0)) (w.getD (t - 7) 0))
                  (fipsSmallSigma0 (w.getD (t - 15) 0))) (w.getD (t - 16) 0)]

/-- One step of FIPS 180-4, 6.4.2, step 3, on the working variables `a .. h` (held in the fields
`h0 .. h7`), with the constant `k` and the schedule word `w` of the step. -/
def fipsStep (v : Digest) (k w : Nat) : Digest :=
  let t1 := fipsAdd (fipsAdd (fipsAdd (fipsAdd v.h7 (fipsBigSigma1 v.h4)) (fipsCh v.h4 v.h5 v.h6)) k) w
  let t2 := fipsAdd (fipsBigSigma0 v.h0) (fipsMaj v.h0 v.h1 v.h2)
  { h0 := fipsAdd t1 t2, h1 := v.h0, h2 := v.h1, h3 := v.h2,
    h4 := fipsAdd v.h3 t1, h5 := v.h4, h6 := v.h5, h7 := v.h6 }

/-- The working variables after `t` steps, started from the hash value `hash`. -/
def fipsVars (ks ws : List Nat) (hash : Digest) : Nat → Digest
  | 0 => hash
  | t + 1 => fipsStep (fipsVars ks ws hash t) (ks.getD t 0) (ws.getD t 0)

/-- The hash value after `i` blocks (FIPS 180-4, 6.4.2, step 4): each word of the previous hash
value plus the working variable of the same position after 80 steps. -/
def fipsHash (msg : List Nat) : Nat → Digest
  | 0 => sha512Init
  | i + 1 =>
    let prev := fipsHash msg i
    let v := fipsVars sha512K (fipsSchedule msg i 80) prev 80
    { h0 := fipsAdd v.h0 prev.h0, h1 := fipsAdd v.h1 prev.h1, h2 := fipsAdd v.h2 prev.h2,
      h3 := fipsAdd v.h3 prev.h3, h4 := fipsAdd v.h4 prev.h4, h5 := fipsAdd v.h5 prev.h5,
      h6 := fipsAdd v.h6 prev.h6, h7 := fipsAdd v.h7 prev.h7 }

/-- The SHA-512 message digest of FIPS 180-4: the 64 bytes of the hash value after all the
blocks of the padded message. -/
def fipsSum512 (msg : List Nat) : List Nat :=
  digestBytes (fipsHash (fipsPad msg) ((fipsPad msg).length / 128))

/-- Value of a character of the standard Base64 alphabet (RFC 4648, table 1). -/
def base64Value (c : Char) : Option Nat :=
  if encodeStd.indexOf c < 64 then some (encodeStd.indexOf c) else none

/-- Decoder of padded standard Base64 (RFC 4648, section 4): four characters give three bytes;
a last group ending in `==` gives one byte and a last group ending in `=` gives two, and the
bits of the group that belong to no byte are zero. -/
def DecodeString : List Char → Option (List Nat)
  | [] => some []
  | a :: b :: c :: d :: rest =>
    match base64Value a, base64Value b with
    | some va, some vb =>
      if c = '=' ∧ d = '=' ∧ rest = [] then
        if vb % 16 = 0 then some [va * 4 + vb / 16] else none
      else
        match base64Value c with
        | some vc =>
          if d = '=' ∧ rest = [] then
            if vc % 4 = 0 then some [va * 4 + vb / 16, vb % 16 * 16 + vc / 4] else none
          else
            match base64Value d, DecodeString rest with
            | some vd, some bytes =>
              some ((va * 4 + vb / 16) :: (vb % 16 * 16 + vc / 4) :: (vc % 4 * 64 + vd) :: bytes)
            | _, _ => none
        | none => none
    | _, _ => none
  | _ => none

/-- `HashStats`: total and average computed from the latency log. -/
structure HashStats where
  Total : Int
  Average : Int
  deriving DecidableEq, Repr

/-- `Hasher`: the id counter, the map from id to hash string and the latency log (durations in
nanoseconds). The mutex is not part of the sequential state. -/
structure Hasher where
  idCounter : Int
  hashes : List (Int × String)
  stats : List Int
  deriving DecidableEq, Repr

/-- Map read `value, ok := m[k]`; `none` stands for `ok == false`. -/
def mapLookup : List (Int × String) → Int → Option String
  | [], _ => none
  | (k', v) :: rest, k => if k' = k then some v else mapLookup rest k

/-- Map write `m[k] = v`: replaces the entry of `k` when there is one, adds one otherwise. -/
def mapAssign : List (Int × String) → Int → String → List (Int × String)
  | [], k, v => [(k, v)]
  | (k', v') :: rest, k, v => if k' = k then (k, v) :: rest else (k', v') :: mapAssign rest k v

/-- Number of entries a map holds for key `k`. -/
def mapCount (m : List (Int × String)) (k : Int) : Nat := (m.filter (fun e => e.1 = k)).length

/-- `t.Sub(u)`: the duration `t - u`, saturated to the range of `time.Duration`. -/
def timeSub (t u : Int) : Int :=
  if t - u > maxInt64 then maxInt64 else if t - u < minInt64 then minInt64 else t - u

/-- `NewHasher`. -/
def NewHasher : Hasher := { idCounter := 0, hashes := [], stats := [] }

/-- `NextId`: increment the counter and return it. -/
def Hasher.NextId (h : Hasher) : Int × Hasher :=
  let h1 := { h with idCounter := wrapInt64 (h.idCounter + 1) }
  (h1.idCounter, h1)

/-- `Add`: store the hash of the password under `id` and append the elapsed time since
`startTime` to the latency log; `now` is the value of `time.Now()`. -/
def Hasher.Add (h : Hasher) (id : Int) (password : String) (startTime now : Int) : Hasher :=
  let hashes := mapAssign h.hashes id (GenerateHash password)
  let timeDiff := timeSub now startTime
  { h with hashes := hashes, stats := h.stats ++ [timeDiff] }

/-- `Get`: the stored hash, or the empty string with the error `id not found`. -/
def Hasher.Get (h : Hasher) (id : Int) : String × Option String :=
  match mapLookup h.hashes id with
  | none => ("", some "id not found")
  | some value => (value, none)

/-- `int64(time.Millisecond)`: nanoseconds in a millisecond. -/
def milliseconds : Int := 1000000

/-- The summing loop of `GenerateStats`: `sum += t.Nanoseconds() / milliseconds` for each entry,
in `int64` arithmetic (`/` truncates toward zero, `+=` wraps). -/
def sumLoop : List Int → Int → Int
  | [], sum => sum
  | t :: ts, sum => sumLoop ts (wrapInt64 (sum + Int.tdiv t milliseconds))

/-- `GenerateStats`. `len` returns an `int`, so `int64(len(h.stats))` is exact. -/
def Hasher.GenerateStats (h : Hasher) : HashStats :=
  let zero : Int := 0
  let total : Int := h.stats.length
  if total = zero then { Total := zero, Average := zero }
  else
    let sum := sumLoop h.stats 0
    let average := Int.tdiv sum total
    { Total := total, Average := average }

/-! ### Sequences of calls on a `Hasher` -/

/-- A call on a `Hasher`. -/
inductive HasherOp where
  | nextId
  | add (id : Int) (password : String) (startTime now : Int)
  | get (id : Int)
  | generateStats
  deriving DecidableEq, Repr

/-- State after one call. `Get` and `GenerateStats` only read. -/
def Hasher.step (h : Hasher) : HasherOp → Hasher
  | .nextId => h.NextId.2
  | .add id password startTime now => h.Add id password startTime now
  | .get _ => h
  | .generateStats => h

/-- State after a sequence of calls. -/
def Hasher.run (h : Hasher) (ops : List HasherOp) : Hasher := ops.foldl Hasher.step h

/-- The values returned by the `NextId` calls of a sequence of calls, in call order. -/
def nextIdResults : Hasher → List HasherOp → List Int
  | _, [] => []
  | h, .nextId :: ops => h.NextId.1 :: nextIdResults h.NextId.2 ops
  | h, op :: ops => nextIdResults (h.step op) ops

/-- Whether a call is an `Add` for identifier `id`. -/
def HasherOp.addsTo (id : Int) : HasherOp → Bool
  | .add i _ _ _ => i == id
  | _ => false

/-- Whether a call is a `NextId`. -/
def HasherOp.isNextId : HasherOp → Bool
  | .nextId => true
  | _ => false

/-! ### What the specification says `GenerateStats` computes -/

/-- A latency in whole milliseconds. -/
def latencyMs (t : Int) : Int := Int.tdiv t 1000000

/-- Sum of the latencies of a log in milliseconds, as a mathematical integer. -/
def msTotal (log : List Int) : Int := (log.map latencyMs).sum

/-! ### What the claim about the rounding of `GenerateStats` says -/

/-- Sum over a log of the latencies truncated to whole milliseconds one by one: the sum of
floor(ns / 1000000). -/
def floorMsTotal (log : List Int) : Int := (log.map (fun t => t / 1000000)).sum

/-- The truncated exact mean of a log in milliseconds: floor of the sum of the nanoseconds over
count times 1000000. -/
def exactMeanMs (log : List Int) : Int := log.sum / ((log.length : Int) * 1000000)

/-! ## `regexp`: a backtracking matcher for the syntax `ParseUrlId` uses -/

/-- Regular expressions: `^`, `$`, a literal character, a character class, concatenation,
`+` (greedy) and a numbered capture group. Without the `m` flag `^` and `$` match only at the
beginning and at the end of the text. -/
inductive Regexp where
  | beginText
  | endText
  | lit (c : Char)
  | cls (p : Char → Bool)
  | cat (a b : Regexp)
  | plus (a : Regexp)
  | capture (i : Nat) (a : Regexp)

/-- State of a match in progress: number of characters before the cursor, the text after the
cursor, and the text of the capture groups closed so far (last closed first). -/
structure MatchState where
  pos : Nat
  rest : List Char
  caps : List (Nat × List Char)
  deriving DecidableEq, Repr

/-- Greedy repetition, one or more times, of a matcher `f`: every way to continue after one more
round comes before stopping. A round that consumes nothing is not repeated; `n` bounds the
number of rounds. -/
def plusRun (f : MatchState → List MatchState) : Nat → MatchState → List MatchState
  | 0, _ => []
  | n + 1, s =>
    (f s).flatMap (fun s1 =>
      (if s1.rest.length < s.rest.length then plusRun f n s1 else []) ++ [s1])

/-- All the ways a regular expression matches at the cursor, in order of preference. -/
def Regexp.run : Regexp → MatchState → List MatchState
  | .beginText, s => if s.pos = 0 then [s] else []
  | .endText, s => if s.rest = [] then [s] else []
  | .lit c, s =>
    match s.rest with
    | x :: xs => if x = c then [{ pos := s.pos + 1, rest := xs, caps := s.caps }] else []
    | [] => []
  | .cls p, s =>
    match s.rest with
    | x :: xs => if p x = true then [{ pos := s.pos + 1, rest := xs, caps := s.caps }] else []
    | [] => []
  | .cat a b, s => (a.run s).flatMap b.run
  | .plus a, s => plusRun a.run (s.rest.length + 1) s
  | .capture i a, s =>
    (a.run s).map (fun s1 => { s1 with caps := (i, s.rest.take (s1.pos - s.pos)) :: s1.caps })

/-- Leftmost match: the preferred match at the first start position that has one, with that
start position and the text from there on. -/
def Regexp.search (re : Regexp) : Nat → List Char → Option (Nat × List Char × MatchState)
  | pos, [] => (re.run { pos := pos, rest := [], caps := [] }).head?.map (fun s1 => (pos, [], s1))
  | pos, c :: cs =>
    match re.run { pos := pos, rest := c :: cs, caps := [] } with
    | s1 :: _ => some (pos, c :: cs, s1)
    | [] => re.search (pos + 1) cs

/-- `FindStringSubmatch` for a regular expression with `groups` capture groups: the text of the
leftmost match followed by the text of each group, or the empty slice when nothing matches. -/
def Regexp.FindStringSubmatch (re : Regexp) (groups : Nat) (s : String) : List String :=
  match re.search 0 s.data with
  | none => []
  | some (start, text, s1) =>
    String.mk (text.take (s1.pos - start))
      :: (List.range groups).map (fun i => String.mk ((s1.caps.lookup (i + 1)).getD []))

/-- The class `\d`: ASCII decimal digits. -/
def isDigitChar (c : Char) : Bool := decide ('0'.toNat ≤ c.toNat ∧ c.toNat ≤ '9'.toNat)

/-- The class `\w`: `[0-9A-Za-z_]`. -/
def isWordChar (c : Char) : Bool :=
  isDigitChar c || decide ('A'.toNat ≤ c.toNat ∧ c.toNat ≤ 'Z'.toNat)
    || decide ('a'.toNat ≤ c.toNat ∧ c.toNat ≤ 'z'.toNat) || decide (c = '_')

/-! ## `strconv.Atoi` -/

/-- Value of a sequence of decimal digits. -/
def decimalValue (ds : List Char) : Nat := ds.foldl (fun acc c => acc * 10 + (c.toNat - '0'.toNat)) 0

/-- `strconv.Atoi`: an optional sign followed by decimal digits, as an `int`. Anything else is a
syntax error with value 0; a value outside `int` is a range error with the nearest bound. -/
def Atoi (s : String) : Int × Option String :=
  let quoted := String.singleton (Char.ofNat 34) ++ s ++ String.singleton (Char.ofNat 34)
  let digits :=
    match s.data with
    | '+' :: r => r
    | '-' :: r => r
    | r => r
  if digits = [] ∨ digits.all isDigitChar = false then
    (0, some ("strconv.Atoi: parsing " ++ quoted ++ ": invalid syntax"))
  else
    let v : Int := decimalValue digits
    let n : Int := if s.data.head? = some '-' then -v else v
    if n > maxInt64 then
      (maxInt64, some ("strconv.Atoi: parsing " ++ quoted ++ ": value out of range"))
    else if n < minInt64 then
      (minInt64, some ("strconv.Atoi: parsing " ++ quoted ++ ": value out of range"))
    else (n, none)

/-! ## `server.go` -/

/-- The compiled expression `^/\w+/(\d+)$` of `ParseUrlId`. -/
def urlIdRegexp : Regexp :=
  .cat .beginText
    (.cat (.lit '/')
      (.cat (.plus (.cls isWordChar))
        (.cat (.lit '/')
          (.cat (.capture 1 (.plus (.cls isDigitChar))) .endText))))

/-- `ParseUrlId`: the id of a path `/hash/:id`. -/
def ParseUrlId (path : String) : Int × Option String :=
  let re := urlIdRegexp
  let submatch := re.FindStringSubmatch 1 path
  if submatch.length < 2 then (0, some "id not found")
  else
    match Atoi (submatch.getD 1 "") with
    | (_, some err) => (0, some err)
    | (id, none) => (id, none)

/-! ### What the claim about `ParseUrlId` says -/

/-- The path is `/`, then the word characters `w` (one or more), then `/`, then the decimal
digits `d` (one or more). -/
def isIdPath (path : String) (w d : List Char) : Prop :=
  path.data = '/' :: w ++ '/' :: d ∧ w ≠ [] ∧ (∀ c ∈ w, isWordChar c = true) ∧
    d ≠ [] ∧ (∀ c ∈ d, isDigitChar c = true)

/-! ### The server and its goroutines

The handlers are embedded as functions on a `World`: the fields of the `HashServer` together with
the goroutines the handlers have started and not yet finished. A handler runs in one step. The
goroutine of `PostHashHandler` sleeps and then runs `Add` and the deferred `Done` in one step; the
goroutine of `GetShutdownHandler` takes three steps: `server.Shutdown` returns, `waitGroup.Wait`
returns, `close(hs.shutdown)`.

`http.Server.Shutdown` closes the listeners and returns once every connection is idle, so the
server invokes no handler after a call of `Shutdown` has returned: `World.step` offers the
request events only while `serverClosed` is false. -/

/-- An HTTP response: status code and body. -/
inductive Body where
  | text (s : String)
  | json (stats : HashStats)
  deriving DecidableEq, Repr

/-- Status code and body written by a handler. -/
structure Response where
  status : Nat
  body : Body
  deriving DecidableEq, Repr

/-- `http.Error(w, msg, code)`: the message followed by a newline. -/
def httpError (msg : String) (code : Nat) : Response := { status := code, body := .text (msg ++ "\n") }

/-- `HashServer`: `server` is kept as the one fact the handlers depend on, whether a call of
`server.Shutdown` has returned; `waitGroup` is the counter of the `sync.WaitGroup`, which
`Add(1)` and `Done()` move by one and which must not become negative; `shutdown` tells whether the
channel `hs.shutdown` is closed. -/
structure HashServer where
  serverClosed : Bool
  waitGroup : Int
  hasher : Hasher
  shutdown : Bool
  deriving DecidableEq, Repr

/-- The goroutine started by `PostHashHandler`, with the variables it captured. -/
structure HashTask where
  id : Int
  password : String
  timeNow : Int
  deriving DecidableEq, Repr

/-- The server and what runs around it. `inShutdown`, `inWait` and `atClose` count the goroutines
of `GetShutdownHandler` that are inside `server.Shutdown`, inside `waitGroup.Wait`, and between
`Wait` and `close`. `crashed` records a run-time panic, which ends the process. `issued` lists
the ids written to responses so far. -/
structure World where
  hs : HashServer
  tasks : List HashTask
  inShutdown : Nat
  inWait : Nat
  atClose : Nat
  crashed : Bool
  issued : List Int
  deriving DecidableEq, Repr

/-- `NewHashServer`: fresh wait group, fresh `Hasher`, open shutdown channel, no goroutine. -/
def NewHashServer : World :=
  { hs := { serverClosed := false, waitGroup := 0, hasher := NewHasher, shutdown := false },
    tasks := [], inShutdown := 0, inWait := 0, atClose := 0, crashed := false, issued := [] }

/-- `PostHashHandler`. `form` is `r.PostForm["password"]` after `r.ParseForm()`: `none` when the
key is absent, otherwise the first value and the further values (`ParseForm` never maps a key to
an empty slice). `timeNow` is the value of `time.Now()`. -/
def PostHashHandler (w : World) (method : String) (form : Option (String × List String))
    (timeNow : Int) : Response × World :=
  if method = "POST" then
    match form with
    | none => (httpError "password parameter is required" 400, w)
    | some password =>
      let (id, hasher) := w.hs.hasher.NextId
      ({ status := 200, body := .text (toString id) },
       { w with
         hs := { w.hs with hasher := hasher, waitGroup := w.hs.waitGroup + 1 },
         tasks := w.tasks ++ [{ id := id, password := password.1, timeNow := timeNow }],
         issued := w.issued ++ [id] })
  else (httpError "POST method is required" 405, w)

/-- `GetHashHandler`. -/
def GetHashHandler (w : World) (method : String) (path : String) : Response × World :=
  if method = "GET" then
    match ParseUrlId path with
    | (_, some err) => (httpError err 404, w)
    | (id, none) =>
      match w.hs.hasher.Get id with
      | (_, some err) => (httpError err 404, w)
      | (hash, none) => ({ status := 200, body := .text hash }, w)
  else (httpError "GET method is required" 405, w)

/-- `GetStatsHandler`. -/
def GetStatsHandler (w : World) (method : String) : Response × World :=
  if method = "GET" then ({ status := 200, body := .json w.hs.hasher.GenerateStats }, w)
  else (httpError "GET method is required" 405, w)

/-- `GetShutdownHandler`: starts the goroutine that shuts the server down, waits for the wait
group and closes the channel. -/
def GetShutdownHandler (w : World) (method : String) : Response × World :=
  if method = "GET" then
    ({ status := 200, body := .text "" }, { w with inShutdown := w.inShutdown + 1 })
  else (httpError "GET method is required" 405, w)

/-- The goroutine of `PostHashHandler` numbered `i` wakes up: `hs.hasher.Add(id, password[0],
timeNow)`, then the deferred `hs.waitGroup.Done()`, which panics on a negative counter. -/
def World.taskDone (w : World) (i : Nat) (now : Int) : Option World :=
  match w.tasks[i]? with
  | none => none
  | some t =>
    let hasher := w.hs.hasher.Add t.id t.password t.timeNow now
    let counter := w.hs.waitGroup - 1
    some { w with
      hs := { w.hs with hasher := hasher, waitGroup := counter },
      tasks := w.tasks.eraseIdx i,
      crashed := decide (counter < 0) }

/-- A goroutine of `GetShutdownHandler` leaves `hs.server.Shutdown`. -/
def World.shutdownReturns (w : World) : Option World :=
  if w.inShutdown = 0 then none
  else some { w with
    hs := { w.hs with serverClosed := true },
    inShutdown := w.inShutdown - 1, inWait := w.inWait + 1 }

/-- A goroutine of `GetShutdownHandler` leaves `hs.waitGroup.Wait()`, which blocks until the
counter is zero. -/
def World.waitReturns (w : World) : Option World :=
  if w.inWait = 0 ∨ w.hs.waitGroup ≠ 0 then none
  else some { w with inWait := w.inWait - 1, atClose := w.atClose + 1 }

/-- A goroutine of `GetShutdownHandler` runs `close(hs.shutdown)` and ends; closing a closed
channel panics. -/
def World.closeShutdown (w : World) : Option World :=
  if w.atClose = 0 then none
  else if w.hs.shutdown = true then some { w with atClose := w.atClose - 1, crashed := true }
  else some { w with hs := { w.hs with shutdown := true }, atClose := w.atClose - 1 }

/-- What can happen next: a request reaches a handler, or a goroutine takes its next step. -/
inductive Event where
  | postHash (method : String) (form : Option (String × List String)) (timeNow : Int)
  | getHash (method : String) (path : String)
  | getStats (method : String)
  | getShutdown (method : String)
  | taskDone (i : Nat) (now : Int)
  | shutdownReturns
  | waitReturns
  | closeShutdown
  deriving DecidableEq, Repr

/-- One step of the served system, `none` when the event cannot happen: nothing happens after a
panic, and the server hands no request to a handler once a call of `Shutdown` has returned. -/
def World.step (w : World) (ev : Event) : Option World :=
  if w.crashed = true then none
  else
    match ev with
    | .postHash method form timeNow =>
      if w.hs.serverClosed = true then none else some (PostHashHandler w method form timeNow).2
    | .getHash method path =>
      if w.hs.serverClosed = true then none else some (GetHashHandler w method path).2
    | .getStats method =>
      if w.hs.serverClosed = true then none else some (GetStatsHandler w method).2
    | .getShutdown method =>
      if w.hs.serverClosed = true then none else some (GetShutdownHandler w method).2
    | .taskDone i now => w.taskDone i now
    | .shutdownReturns => w.shutdownReturns
    | .waitReturns => w.waitReturns
    | .closeShutdown => w.closeShutdown

/-- The state after a sequence of events; an event that cannot happen is skipped. -/
def World.exec (w : World) : List Event → World
  | [] => w
  | ev :: evs => World.exec ((w.step ev).getD w) evs

/-- The shutdown state of the specification. -/
inductive ShutdownState where
  | Running
  | Draining
  | Stopped
  deriving DecidableEq, Repr

/-- Position of a shutdown state in the order Running, Draining, Stopped. -/
def ShutdownState.rank : ShutdownState → Nat
  | .Running => 0
  | .Draining => 1
  | .Stopped => 2

/-- The shutdown state of a `World`: Stopped once the channel is closed, Draining while a
goroutine of `GetShutdownHandler` is on its way to close it, Running before. -/
def World.shutdownState (w : World) : ShutdownState :=
  if w.hs.shutdown = true then .Stopped
  else if w.inShutdown + w.inWait + w.atClose = 0 then .Running
  else .Draining

/-- Invariant of the served system: the wait group counts the running tasks; every issued id
has a running task or a record; a goroutine of `GetShutdownHandler` past `server.Shutdown`, or a
closed channel, means the server hands out no more requests; once `Wait` has returned no task is
running. -/
def World.Inv (w : World) : Prop :=
  w.hs.waitGroup = (w.tasks.length : Int) ∧
  (∀ id ∈ w.issued,
    (∃ t ∈ w.tasks, t.id = id) ∨ (mapLookup w.hs.hasher.hashes id).isSome = true) ∧
  ((0 < w.inWait ∨ 0 < w.atClose ∨ w.hs.shutdown = true) → w.hs.serverClosed = true) ∧
  ((0 < w.atClose ∨ w.hs.shutdown = true) → w.tasks = [])

/-! # Theorems -/

/-! ## Machine integers -/

theorem wrapInt64_of_inInt64 (x : Int) (h : inInt64 x) : wrapInt64 x = x := by
  unfold inInt64 minInt64 maxInt64 at h
  unfold wrapInt64
  omega

theorem wrapInt64_add_left (a b : Int) : wrapInt64 (wrapInt64 a + b) = wrapInt64 (a + b) := by
  unfold wrapInt64
  omega

theorem inInt64_wrapInt64 (x : Int) : inInt64 (wrapInt64 x) := by
  unfold inInt64 minInt64 maxInt64 wrapInt64
  omega

/-! ## The map of a `Hasher` -/

theorem mapLookup_mapAssign_self (m : List (Int × String)) (k : Int) (v : String) :
    mapLookup (mapAssign m k v) k = some v := by
  induction m with
  | nil => simp [mapAssign, mapLookup]
  | cons e rest ih =>
    obtain ⟨k', v'⟩ := e
    by_cases hk : k' = k
    · simp [mapAssign, mapLookup, hk]
    · simp [mapAssign, mapLookup, hk, ih]

theorem mapLookup_mapAssign_ne (m : List (Int × String)) (k j : Int) (v : String) (hj : j ≠ k) :
    mapLookup (mapAssign m k v) j = mapLookup m j := by
  induction m with
  | nil =>
    have : ¬ k = j := fun h => hj h.symm
    simp [mapAssign, mapLookup, this]
  | cons e rest ih =>
    obtain ⟨k', v'⟩ := e
    by_cases hk : k' = k
    · have : ¬ k = j := fun h => hj h.symm
      have h2 : ¬ k' = j := by rw [hk]; exact this
      simp [mapAssign, mapLookup, hk, this]
    · by_cases hkj : k' = j
      · subst hkj
        simp [mapAssign, mapLookup, hj]
      · simp [mapAssign, mapLookup, hk, hkj, ih]

theorem mapCount_mapAssign_ne (m : List (Int × String)) (k j : Int) (v : String) (hj : j ≠ k) :
    mapCount (mapAssign m k v) j = mapCount m j := by
  have hkj : ¬ k = j := fun h => hj h.symm
  induction m with
  | nil => simp [mapAssign, mapCount, hkj]
  | cons e rest ih =>
    obtain ⟨k', v'⟩ := e
    unfold mapCount at ih
    by_cases hk : k' = k
    · have h2 : ¬ k' = j := by rw [hk]; exact hkj
      simp [mapAssign, mapCount, hk, hkj]
    · by_cases h3 : k' = j
      · subst h3
        simp [mapAssign, mapCount, hj, List.filter_cons, ih]
      · simp [mapAssign, mapCount, hk, h3, List.filter_cons, ih]

theorem mapCount_mapAssign_self (m : List (Int × String)) (k : Int) (v : String) :
    mapCount (mapAssign m k v) k = max 1 (mapCount m k) := by
  induction m with
  | nil => simp [mapAssign, mapCount]
  | cons e rest ih =>
    obtain ⟨k', v'⟩ := e
    unfold mapCount at ih
    by_cases hk : k' = k
    · simp [mapAssign, mapCount, hk, List.filter_cons]
    · simp [mapAssign, mapCount, hk, List.filter_cons, ih]

theorem mapLookup_eq_none_iff (m : List (Int × String)) (k : Int) :
    mapLookup m k = none ↔ mapCount m k = 0 := by
  induction m with
  | nil => simp [mapLookup, mapCount]
  | cons e rest ih =>
    obtain ⟨k', v'⟩ := e
    unfold mapCount at ih
    by_cases hk : k' = k
    · simp [mapLookup, mapCount, hk, List.filter_cons]
    · simp [mapLookup, mapCount, hk, List.filter_cons, ih]


/-! ## Test vectors of `GenerateHash` (`TestHasherGenerateHash`) -/

theorem GenerateHash_angryMonkey :
    GenerateHash "angryMonkey"
      = "ZEHhWB65gUlzdVwtDQArEyx+KVLzp/aTaRaPlBzYRIFj6vjFdqEb0Q5B8zVKCZ0vKbZPZklJz0Fd7su2A+gf7Q==" := by
  decide!

theorem GenerateHash_baloo1 :
    GenerateHash "baloo1"
      = "74YskF/4/vdsObP1fBbGzZHVzIWKtBkpz0QotXEvGW5087z1MxwbwOc7dsxLZ98TBPAP1LIIdCOb0AsyESuQhw==" := by
  decide!

/-- A message of 120 bytes, whose padding spills into a second block. -/
theorem GenerateHash_two_blocks :
    GenerateHash (String.mk (List.replicate 120 'a'))
      = "8kHeYSsBqi+jzwFTHSqOXhf8dh39SKcEqDSkf1fW6t54BOzDm+Qv3vFuxq3q98AcL9DEzJfThgkHz6Sjs20MBQ==" := by
  decide!

/-! ## Sequences of calls -/

theorem run_append (h : Hasher) (a b : List HasherOp) : h.run (a ++ b) = (h.run a).run b := by
  simp [Hasher.run, List.foldl_append]

theorem run_cons (h : Hasher) (op : HasherOp) (ops : List HasherOp) :
    h.run (op :: ops) = (h.step op).run ops := rfl

theorem step_lookup_of_not_addsTo (h : Hasher) (op : HasherOp) (id : Int)
    (hop : op.addsTo id = false) : mapLookup (h.step op).hashes id = mapLookup h.hashes id := by
  cases op with
  | nextId => rfl
  | add i p s n =>
    have hne : id ≠ i := by
      intro e
      simp [HasherOp.addsTo, e] at hop
    exact mapLookup_mapAssign_ne h.hashes i id (GenerateHash p) hne
  | get i => rfl
  | generateStats => rfl

theorem run_lookup_of_not_addsTo (ops : List HasherOp) (h : Hasher) (id : Int)
    (hops : ∀ op ∈ ops, op.addsTo id = false) :
    mapLookup (h.run ops).hashes id = mapLookup h.hashes id := by
  induction ops generalizing h with
  | nil => rfl
  | cons op ops ih =>
    rw [run_cons, ih (h.step op) (fun o ho => hops o (List.mem_cons_of_mem _ ho))]
    exact step_lookup_of_not_addsTo h op id (hops op (List.mem_cons_self _ _))

theorem Get_run_of_not_addsTo (ops : List HasherOp) (h : Hasher) (id : Int)
    (hops : ∀ op ∈ ops, op.addsTo id = false) : (h.run ops).Get id = h.Get id := by
  unfold Hasher.Get
  rw [run_lookup_of_not_addsTo ops h id hops]

theorem Get_Add_self (h : Hasher) (id : Int) (password : String) (startTime now : Int) :
    (h.Add id password startTime now).Get id = (GenerateHash password, none) := by
  simp [Hasher.Get, Hasher.Add, mapLookup_mapAssign_self]

theorem Get_Add_ne (h : Hasher) (id j : Int) (password : String) (startTime now : Int)
    (hj : j ≠ id) : (h.Add id password startTime now).Get j = h.Get j := by
  simp [Hasher.Get, Hasher.Add, mapLookup_mapAssign_ne _ _ _ _ hj]

/-- C1. On every state reached from `NewHasher`, `Get id` is the empty string with the error
`id not found` as long as no `Add` for `id` has happened (whatever `NextId`, `Get`,
`GenerateStats` calls and `Add` calls for other identifiers were made); right after
`Add id secret` it is `(GenerateHash secret, nil)`, and it stays so after any further calls that
are not an `Add` for `id`. -/
theorem C1_get_notFound_then_stable_digest :
    (∀ (ops : List HasherOp) (id : Int), (∀ op ∈ ops, op.addsTo id = false) →
        (NewHasher.run ops).Get id = ("", some "id not found")) ∧
    (∀ (ops rest : List HasherOp) (id : Int) (secret : String) (t now : Int),
        (∀ op ∈ rest, op.addsTo id = false) →
        ((NewHasher.run ops).Add id secret t now).Get id = (GenerateHash secret, none) ∧
        (((NewHasher.run ops).Add id secret t now).run rest).Get id
          = (GenerateHash secret, none)) := by
  refine ⟨?_, ?_⟩
  · intro ops id hops
    rw [Get_run_of_not_addsTo ops NewHasher id hops]
    rfl
  · intro ops rest id secret t now hrest
    refine ⟨Get_Add_self _ id secret t now, ?_⟩
    rw [Get_run_of_not_addsTo rest _ id hrest]
    exact Get_Add_self _ id secret t now

/-- Instance of C1: identifier 1 is issued and pending, then added, then other calls follow. -/
theorem C1_get_notFound_then_stable_digest_witness :
    (NewHasher.run [HasherOp.nextId, HasherOp.get 1, HasherOp.add 7 "x" 0 5]).Get 1
        = ("", some "id not found") ∧
    ((((NewHasher.run [HasherOp.nextId]).Add 1 "angryMonkey" 0 5).run
        [HasherOp.nextId, HasherOp.get 1, HasherOp.generateStats, HasherOp.add 2 "baloo1" 3 9]).Get 1
        = (GenerateHash "angryMonkey", none)) :=
  ⟨C1_get_notFound_then_stable_digest.1 [HasherOp.nextId, HasherOp.get 1, HasherOp.add 7 "x" 0 5] 1
      (by decide),
   (C1_get_notFound_then_stable_digest.2 [HasherOp.nextId]
      [HasherOp.nextId, HasherOp.get 1, HasherOp.generateStats, HasherOp.add 2 "baloo1" 3 9]
      1 "angryMonkey" 0 5 (by decide)).2⟩

/-! ## The id counter -/

theorem step_idCounter_of_not_nextId (h : Hasher) (op : HasherOp) (hop : op.isNextId = false) :
    (h.step op).idCounter = h.idCounter := by
  cases op with
  | nextId => simp [HasherOp.isNextId] at hop
  | add i p s n => rfl
  | get i => rfl
  | generateStats => rfl

theorem nextIdResults_cons_of_not_nextId (h : Hasher) (op : HasherOp) (ops : List HasherOp)
    (hop : op.isNextId = false) : nextIdResults h (op :: ops) = nextIdResults (h.step op) ops := by
  cases op with
  | nextId => simp [HasherOp.isNextId] at hop
  | add i p s n => rfl
  | get i => rfl
  | generateStats => rfl

/-- The `n`-th `NextId` call (counted from 1) of any sequence of calls returns the counter of the
initial state plus `n`, wrapped to 64 bits. -/
theorem nextIdResults_get (ops : List HasherOp) (h : Hasher) (n : Nat)
    (hn : n < ops.countP HasherOp.isNextId) :
    (nextIdResults h ops)[n]? = some (wrapInt64 (h.idCounter + n + 1)) := by
  induction ops generalizing h n with
  | nil => simp at hn
  | cons op ops ih =>
    cases hop : op.isNextId with
    | false =>
      rw [nextIdResults_cons_of_not_nextId h op ops hop]
      rw [List.countP_cons_of_neg _ _ (by simp [hop])] at hn
      rw [ih (h.step op) n hn, step_idCounter_of_not_nextId h op hop]
    | true =>
      have hop2 : op = HasherOp.nextId := by
        cases op <;> simp [HasherOp.isNextId] at hop ⊢
      subst hop2
      rw [List.countP_cons_of_pos _ _ (by simp [HasherOp.isNextId])] at hn
      cases n with
      | zero => simp [nextIdResults, Hasher.NextId]
      | succ m =>
        have hm : m < ops.countP HasherOp.isNextId := by omega
        have := ih h.NextId.2 m hm
        simp only [nextIdResults, List.getElem?_cons_succ]
        rw [this]
        simp only [Hasher.NextId]
        have e1 : wrapInt64 (h.idCounter + 1) + (m : Int) + 1
            = wrapInt64 (h.idCounter + 1) + ((m : Int) + 1) := by ring
        have e2 : h.idCounter + ((m + 1 : Nat) : Int) + 1 = h.idCounter + 1 + ((m : Int) + 1) := by
          push_cast
          ring
        rw [e1, e2, wrapInt64_add_left]

theorem countP_isNextId_replicate (n : Nat) :
    (List.replicate n HasherOp.nextId).countP HasherOp.isNextId = n := by
  induction n with
  | zero => rfl
  | succ k ih => rw [List.replicate_succ, List.countP_cons_of_pos _ _ (by rfl), ih]

/-- C2 as stated fails at the 2^63-th call: after 2^63 - 1 calls the counter holds the largest
`int`, and the next increment wraps, so the call returns -2^63 and not 2^63. -/
theorem C2_counterexample_counter_wraps :
    1 ≤ 9223372036854775808 ∧
    9223372036854775808
      ≤ (List.replicate 9223372036854775808 HasherOp.nextId).countP HasherOp.isNextId ∧
    (nextIdResults NewHasher (List.replicate 9223372036854775808 HasherOp.nextId))[
        9223372036854775808 - 1]? = some (-9223372036854775808 : Int) ∧
    (-9223372036854775808 : Int) ≠ ((9223372036854775808 : Nat) : Int) := by
  refine ⟨by decide, ?_, ?_, by decide⟩
  · rw [countP_isNextId_replicate]
  · rw [nextIdResults_get _ _ _ (by rw [countP_isNextId_replicate]; decide)]
    decide

/-- C2, amended. For every sequence of calls on a fresh `Hasher` and every `n` from 1 up to the
largest `int` (2^63 - 1), the `n`-th `NextId` call returns exactly `n`, whatever `Add`, `Get` and
`GenerateStats` calls are interleaved. -/
theorem C2_nth_nextId_returns_n (ops : List HasherOp) (n : Nat) (h1 : 1 ≤ n)
    (hn : n ≤ ops.countP HasherOp.isNextId) (hmax : (n : Int) ≤ maxInt64) :
    (nextIdResults NewHasher ops)[n - 1]? = some (n : Int) := by
  rw [nextIdResults_get ops NewHasher (n - 1) (by omega)]
  have hcast : NewHasher.idCounter + ((n - 1 : Nat) : Int) + 1 = (n : Int) := by
    simp only [NewHasher]
    omega
  rw [hcast, wrapInt64_of_inInt64]
  unfold inInt64 minInt64
  exact ⟨by omega, hmax⟩

/-- Instance of C2: the third `NextId` call of an interleaved sequence returns 3. -/
theorem C2_nth_nextId_returns_n_witness :
    (nextIdResults NewHasher
        [HasherOp.nextId, HasherOp.add 1 "a" 0 1, HasherOp.nextId, HasherOp.get 1,
         HasherOp.generateStats, HasherOp.nextId])[3 - 1]? = some ((3 : Nat) : Int) :=
  C2_nth_nextId_returns_n
    [HasherOp.nextId, HasherOp.add 1 "a" 0 1, HasherOp.nextId, HasherOp.get 1,
     HasherOp.generateStats, HasherOp.nextId] 3 (by decide) (by decide) (by decide)

/-! ## `GenerateStats` -/

theorem run_stats_replicate_add (n : Nat) (h : Hasher) (id : Int) (p : String) (s now : Int) :
    (h.run (List.replicate n (HasherOp.add id p s now))).stats
      = h.stats ++ List.replicate n (timeSub now s) := by
  induction n generalizing h with
  | zero => simp [Hasher.run]
  | succ k ih =>
    rw [List.replicate_succ, run_cons, ih]
    simp only [Hasher.step, Hasher.Add, List.append_assoc, List.singleton_append]
    rw [← List.replicate_succ]

theorem sumLoop_wrap (log : List Int) (s : Int) :
    sumLoop log (wrapInt64 s) = wrapInt64 (s + msTotal log) := by
  induction log generalizing s with
  | nil => simp [sumLoop, msTotal]
  | cons t ts ih =>
    simp only [sumLoop, wrapInt64_add_left]
    rw [ih]
    congr 1
    simp only [msTotal, latencyMs, milliseconds, List.map_cons, List.sum_cons]
    ring

theorem sumLoop_zero (log : List Int) : sumLoop log 0 = wrapInt64 (msTotal log) := by
  have h := sumLoop_wrap log 0
  have h0 : wrapInt64 0 = 0 := by decide
  rw [h0, zero_add] at h
  exact h

theorem msTotal_replicate (n : Nat) (d : Int) :
    msTotal (List.replicate n d) = (n : Int) * latencyMs d := by
  induction n with
  | zero => simp [msTotal]
  | succ k ih =>
    unfold msTotal at ih
    rw [List.replicate_succ]
    simp only [msTotal, List.map_cons, List.sum_cons, ih]
    push_cast
    ring

theorem GenerateStats_eq (h : Hasher) (hne : h.stats ≠ []) :
    h.GenerateStats
      = { Total := h.stats.length,
          Average := Int.tdiv (wrapInt64 (msTotal h.stats)) h.stats.length } := by
  have hlen : ¬ ((h.stats.length : Int) = 0) := by
    intro e
    exact hne (List.length_eq_zero.mp (by exact_mod_cast e))
  simp only [Hasher.GenerateStats, hlen, if_false, sumLoop_zero]

theorem GenerateStats_of_stats (h : Hasher) (log : List Int) (hs : h.stats = log)
    (hne : log ≠ []) :
    h.GenerateStats
      = { Total := log.length, Average := Int.tdiv (wrapInt64 (msTotal log)) log.length } := by
  subst hs
  exact GenerateStats_eq h hne

/-- C3 as stated fails once the sum of the millisecond latencies leaves the range of `int64`.
1000001 calls of `Add` with the zero `time.Time` (year 1) as start time, made in 2023, each
record the saturated duration 2^63 - 1 ns, 9223372036854ms: the running sum wraps and the
reported average is negative, while the sum divided by the count is 9223372036854. -/
theorem C3_counterexample_sum_wraps :
    (NewHasher.run (List.replicate 1000001 (HasherOp.add 1 "" (-62135596800000000000) 1700000000000000000))).stats
      = List.replicate 1000001 9223372036854775807 ∧
    (NewHasher.run
        (List.replicate 1000001 (HasherOp.add 1 "" (-62135596800000000000) 1700000000000000000))).GenerateStats
      = { Total := 1000001, Average := -9223353590129 } ∧
    Int.tdiv (msTotal (List.replicate 1000001 9223372036854775807)) 1000001 = 9223372036854 := by
  have hne : (List.replicate 1000001 (9223372036854775807 : Int)) ≠ [] := by
    rw [List.replicate_succ]
    exact List.cons_ne_nil _ _
  have hstats : (NewHasher.run
      (List.replicate 1000001 (HasherOp.add 1 "" (-62135596800000000000) 1700000000000000000))).stats
      = List.replicate 1000001 9223372036854775807 := by
    rw [run_stats_replicate_add]
    have ht : timeSub 1700000000000000000 (-62135596800000000000) = 9223372036854775807 := by
      decide
    rw [ht]
    rfl
  refine ⟨hstats, ?_, ?_⟩
  · rw [GenerateStats_of_stats _ _ hstats hne]
    simp only [msTotal_replicate, List.length_replicate]
    decide
  · rw [msTotal_replicate]
    decide

/-- C3, amended. For every latency log whose sum of millisecond latencies fits in `int64`,
`GenerateStats` returns `Total` = number of entries and `Average` = that sum divided by `Total`
with truncating division; it returns (0, 0) on the empty log; 2000ms and 4000ms give
(2, 3000) and 2000ms and 4001ms give average 3000. -/
theorem C3_generateStats_total_and_truncated_average :
    (∀ h : Hasher, inInt64 (msTotal h.stats) →
        h.GenerateStats
          = { Total := h.stats.length,
              Average := Int.tdiv (msTotal h.stats) h.stats.length }) ∧
    (∀ h : Hasher, h.stats = [] → h.GenerateStats = { Total := 0, Average := 0 }) ∧
    (∀ (c : Int) (m : List (Int × String)),
        ({ idCounter := c, hashes := m, stats := [2000000000, 4000000000] } : Hasher).GenerateStats
          = { Total := 2, Average := 3000 }) ∧
    (∀ (c : Int) (m : List (Int × String)),
        ({ idCounter := c, hashes := m, stats := [2000000000, 4001000000] } : Hasher).GenerateStats
          = { Total := 2, Average := 3000 }) := by
  refine ⟨?_, ?_, ?_, ?_⟩
  · intro h hsum
    by_cases hne : h.stats = []
    · simp [Hasher.GenerateStats, hne]
    · rw [GenerateStats_eq h hne, wrapInt64_of_inInt64 _ hsum]
  · intro h he
    simp [Hasher.GenerateStats, he]
  · intro c m
    rw [GenerateStats_eq _ (List.cons_ne_nil _ _)]
    show ({ Total := ((2 : Nat) : Int),
            Average := Int.tdiv (wrapInt64 (msTotal [2000000000, 4000000000])) ((2 : Nat) : Int) }
          : HashStats) = { Total := 2, Average := 3000 }
    decide
  · intro c m
    rw [GenerateStats_eq _ (List.cons_ne_nil _ _)]
    show ({ Total := ((2 : Nat) : Int),
            Average := Int.tdiv (wrapInt64 (msTotal [2000000000, 4001000000])) ((2 : Nat) : Int) }
          : HashStats) = { Total := 2, Average := 3000 }
    decide

/-- Instance of C3: a log of 1500ms, 2500ms and 3001ms. -/
theorem C3_generateStats_total_and_truncated_average_witness :
    ({ idCounter := 3, hashes := [], stats := [1500000000, 2500000000, 3001000000] }
        : Hasher).GenerateStats
      = { Total := (3 : Nat), Average := Int.tdiv (msTotal [1500000000, 2500000000, 3001000000]) (3 : Nat) } :=
  C3_generateStats_total_and_truncated_average.1
    { idCounter := 3, hashes := [], stats := [1500000000, 2500000000, 3001000000] } (by decide)

/-! ## The store invariant -/

theorem step_mapCount_le_one (h : Hasher) (op : HasherOp) (id : Int)
    (hc : mapCount h.hashes id ≤ 1) : mapCount (h.step op).hashes id ≤ 1 := by
  cases op with
  | nextId => exact hc
  | add i p s n =>
    by_cases e : id = i
    · subst e
      simp only [Hasher.step, Hasher.Add, mapCount_mapAssign_self]
      omega
    · simp only [Hasher.step, Hasher.Add, mapCount_mapAssign_ne _ _ _ _ e]
      exact hc
  | get i => exact hc
  | generateStats => exact hc

theorem run_mapCount_le_one (ops : List HasherOp) (h : Hasher) (id : Int)
    (hc : mapCount h.hashes id ≤ 1) : mapCount (h.run ops).hashes id ≤ 1 := by
  induction ops generalizing h with
  | nil => exact hc
  | cons op ops ih =>
    rw [run_cons]
    exact ih (h.step op) (step_mapCount_le_one h op id hc)

theorem step_lookup_isSome (h : Hasher) (op : HasherOp) (id : Int)
    (hs : (mapLookup h.hashes id).isSome = true) :
    (mapLookup (h.step op).hashes id).isSome = true := by
  cases op with
  | nextId => exact hs
  | add i p s n =>
    by_cases e : id = i
    · subst e
      simp [Hasher.step, Hasher.Add, mapLookup_mapAssign_self]
    · simp only [Hasher.step, Hasher.Add, mapLookup_mapAssign_ne _ _ _ _ e]
      exact hs
  | get i => exact hs
  | generateStats => exact hs

theorem run_lookup_isSome (ops : List HasherOp) (h : Hasher) (id : Int)
    (hs : (mapLookup h.hashes id).isSome = true) :
    (mapLookup (h.run ops).hashes id).isSome = true := by
  induction ops generalizing h with
  | nil => exact hs
  | cons op ops ih =>
    rw [run_cons]
    exact ih (h.step op) (step_lookup_isSome h op id hs)

theorem Get_eq_ok_iff (h : Hasher) (id : Int) (d : String) :
    h.Get id = (d, none) ↔ mapLookup h.hashes id = some d := by
  unfold Hasher.Get
  cases mapLookup h.hashes id with
  | none => simp
  | some v => simp

/-- C4 as stated fails: `Add` on an identifier that already has a record overwrites it. After
`Add(1, "angryMonkey")`, `Get(1)` returns a digest; after a further `Add(1, "baloo1")` it
returns a different one. -/
theorem C4_counterexample_add_overwrites :
    (NewHasher.run [HasherOp.add 1 "angryMonkey" 0 5]).Get 1
      = ("ZEHhWB65gUlzdVwtDQArEyx+KVLzp/aTaRaPlBzYRIFj6vjFdqEb0Q5B8zVKCZ0vKbZPZklJz0Fd7su2A+gf7Q==",
         none) ∧
    (NewHasher.run ([HasherOp.add 1 "angryMonkey" 0 5] ++ [HasherOp.add 1 "baloo1" 0 5])).Get 1
      = ("74YskF/4/vdsObP1fBbGzZHVzIWKtBkpz0QotXEvGW5087z1MxwbwOc7dsxLZ98TBPAP1LIIdCOb0AsyESuQhw==",
         none) ∧
    (NewHasher.run ([HasherOp.add 1 "angryMonkey" 0 5] ++ [HasherOp.add 1 "baloo1" 0 5])).Get 1
      ≠ (NewHasher.run [HasherOp.add 1 "angryMonkey" 0 5]).Get 1 := by
  have h1 : (NewHasher.run [HasherOp.add 1 "angryMonkey" 0 5]).Get 1
      = (GenerateHash "angryMonkey", none) := Get_Add_self NewHasher 1 "angryMonkey" 0 5
  have h2 : (NewHasher.run
      ([HasherOp.add 1 "angryMonkey" 0 5] ++ [HasherOp.add 1 "baloo1" 0 5])).Get 1
      = (GenerateHash "baloo1", none) :=
    Get_Add_self (NewHasher.Add 1 "angryMonkey" 0 5) 1 "baloo1" 0 5
  rw [h1, h2, GenerateHash_angryMonkey, GenerateHash_baloo1]
  exact ⟨rfl, rfl, by decide⟩

/-- C4, amended. In every state reached from `NewHasher` each identifier has either no record
(and `Get` fails with `id not found`) or exactly one (which `Get` returns); no call removes a
record: once `Get id` has returned a digest every later `Get id` returns a digest, and it is
that same digest as long as none of the later calls is an `Add` for `id`. -/
theorem C4_store_invariant_records_never_removed :
    (∀ (ops : List HasherOp) (id : Int),
        (mapCount (NewHasher.run ops).hashes id = 0 ∧
          (NewHasher.run ops).Get id = ("", some "id not found")) ∨
        (mapCount (NewHasher.run ops).hashes id = 1 ∧
          ∃ d, (NewHasher.run ops).Get id = (d, none))) ∧
    (∀ (ops later : List HasherOp) (id : Int) (d : String),
        (NewHasher.run ops).Get id = (d, none) →
        (∃ d', (NewHasher.run (ops ++ later)).Get id = (d', none)) ∧
        ((∀ op ∈ later, op.addsTo id = false) →
          (NewHasher.run (ops ++ later)).Get id = (d, none))) := by
  refine ⟨?_, ?_⟩
  · intro ops id
    have hle := run_mapCount_le_one ops NewHasher id (by simp [NewHasher, mapCount])
    cases hl : mapLookup (NewHasher.run ops).hashes id with
    | none =>
      left
      exact ⟨(mapLookup_eq_none_iff _ _).mp hl, by simp [Hasher.Get, hl]⟩
    | some v =>
      right
      have hnz : mapCount (NewHasher.run ops).hashes id ≠ 0 := by
        intro hz
        rw [(mapLookup_eq_none_iff _ _).mpr hz] at hl
        exact Option.noConfusion hl
      exact ⟨by omega, v, by simp [Hasher.Get, hl]⟩
  · intro ops later id d hget
    rw [run_append]
    refine ⟨?_, ?_⟩
    · have hs : (mapLookup (NewHasher.run ops).hashes id).isSome = true := by
        rw [(Get_eq_ok_iff _ _ _).mp hget]
        rfl
      have := run_lookup_isSome later _ id hs
      obtain ⟨v, hv⟩ := Option.isSome_iff_exists.mp this
      exact ⟨v, (Get_eq_ok_iff _ _ _).mpr hv⟩
    · intro hlater
      rw [Get_run_of_not_addsTo later _ id hlater]
      exact hget

/-- Instance of C4: the record of identifier 1 survives later calls, an `Add` for 2 included. -/
theorem C4_store_invariant_records_never_removed_witness :
    (NewHasher.run [HasherOp.nextId, HasherOp.add 1 "a" 0 5]).Get 1 = (GenerateHash "a", none) ∧
    ((∃ d', (NewHasher.run ([HasherOp.nextId, HasherOp.add 1 "a" 0 5]
        ++ [HasherOp.nextId, HasherOp.add 2 "b" 1 6, HasherOp.get 1])).Get 1 = (d', none)) ∧
     ((∀ op ∈ [HasherOp.nextId, HasherOp.add 2 "b" 1 6, HasherOp.get 1],
        op.addsTo 1 = false) →
      (NewHasher.run ([HasherOp.nextId, HasherOp.add 1 "a" 0 5]
        ++ [HasherOp.nextId, HasherOp.add 2 "b" 1 6, HasherOp.get 1])).Get 1
        = (GenerateHash "a", none))) :=
  ⟨Get_Add_self _ 1 "a" 0 5,
   C4_store_invariant_records_never_removed.2 [HasherOp.nextId, HasherOp.add 1 "a" 0 5]
     [HasherOp.nextId, HasherOp.add 2 "b" 1 6, HasherOp.get 1] 1 (GenerateHash "a")
     (Get_Add_self _ 1 "a" 0 5)⟩

/-- C9. `Add` is last-write-wins: after `Add(id, s1, t1)` then `Add(id, s2, t2)` on any
`Hasher`, `Get(id)` returns `(GenerateHash(s2), nil)`, and `Get` of every other identifier
returns what it returned before the two calls. -/
theorem C9_add_last_write_wins (h : Hasher) (id : Int) (s1 s2 : String) (t1 n1 t2 n2 : Int) :
    ((h.Add id s1 t1 n1).Add id s2 t2 n2).Get id = (GenerateHash s2, none) ∧
    (∀ j : Int, j ≠ id →
      ((h.Add id s1 t1 n1).Add id s2 t2 n2).Get j = h.Get j ∧
      mapLookup ((h.Add id s1 t1 n1).Add id s2 t2 n2).hashes j = mapLookup h.hashes j) := by
  refine ⟨Get_Add_self _ id s2 t2 n2, ?_⟩
  intro j hj
  refine ⟨?_, ?_⟩
  · rw [Get_Add_ne _ id j s2 t2 n2 hj, Get_Add_ne _ id j s1 t1 n1 hj]
  · simp only [Hasher.Add]
    rw [mapLookup_mapAssign_ne _ _ _ _ hj, mapLookup_mapAssign_ne _ _ _ _ hj]

/-- Instance of C9: identifier 2 keeps its record while identifier 1 is written twice. -/
theorem C9_add_last_write_wins_witness :
    ((((NewHasher.Add 2 "keep" 0 1).Add 1 "first" 0 2).Add 1 "second" 0 3).Get 2
      = (NewHasher.Add 2 "keep" 0 1).Get 2) :=
  ((C9_add_last_write_wins (NewHasher.Add 2 "keep" 0 1) 1 "first" "second" 0 2 0 3).2 2
    (by decide)).1

/-! ## The matcher on `^/\w+/(\d+)$` -/

theorem mem_run_cat (a b : Regexp) (s s' : MatchState) :
    s' ∈ (Regexp.cat a b).run s ↔ ∃ s1, s1 ∈ a.run s ∧ s' ∈ b.run s1 := by
  simp only [Regexp.run, List.mem_flatMap]

theorem mem_run_beginText (s s' : MatchState) :
    s' ∈ Regexp.beginText.run s ↔ s.pos = 0 ∧ s' = s := by
  by_cases h : s.pos = 0 <;> simp [Regexp.run, h]

theorem mem_run_endText (s s' : MatchState) :
    s' ∈ Regexp.endText.run s ↔ s.rest = [] ∧ s' = s := by
  by_cases h : s.rest = [] <;> simp [Regexp.run, h]

theorem mem_run_lit (c : Char) (s s' : MatchState) :
    s' ∈ (Regexp.lit c).run s
      ↔ ∃ cs, s.rest = c :: cs ∧ s' = { pos := s.pos + 1, rest := cs, caps := s.caps } := by
  obtain ⟨pos, rest, caps⟩ := s
  cases rest with
  | nil => simp [Regexp.run]
  | cons x xs =>
    by_cases hx : x = c
    · subst hx
      simp [Regexp.run]
    · simp [Regexp.run, hx]

theorem mem_run_cls (p : Char → Bool) (s s' : MatchState) :
    s' ∈ (Regexp.cls p).run s
      ↔ ∃ c cs, s.rest = c :: cs ∧ p c = true
          ∧ s' = { pos := s.pos + 1, rest := cs, caps := s.caps } := by
  obtain ⟨pos, rest, caps⟩ := s
  cases rest with
  | nil => simp [Regexp.run]
  | cons x xs =>
    by_cases hx : p x = true
    · simp only [Regexp.run, hx, if_true, List.mem_singleton, List.cons.injEq]
      constructor
      · intro h
        exact ⟨x, xs, ⟨rfl, rfl⟩, hx, h⟩
      · rintro ⟨c, cs, ⟨rfl, rfl⟩, _, h⟩
        exact h
    · simp only [Regexp.run, hx, List.cons.injEq]
      constructor
      · intro h
        simp at h
      · rintro ⟨c, cs, ⟨rfl, rfl⟩, hc, _⟩
        exact absurd hc hx

theorem mem_run_capture (i : Nat) (a : Regexp) (s s' : MatchState) :
    s' ∈ (Regexp.capture i a).run s
      ↔ ∃ s1, s1 ∈ a.run s
          ∧ s' = { s1 with caps := (i, s.rest.take (s1.pos - s.pos)) :: s1.caps } := by
  simp only [Regexp.run, List.mem_map]
  constructor
  · rintro ⟨s1, h1, rfl⟩
    exact ⟨s1, h1, rfl⟩
  · rintro ⟨s1, h1, rfl⟩
    exact ⟨s1, h1, rfl⟩

/-- Greedy repetition of a character class reaches exactly the states after a non-empty prefix
of class characters. -/
theorem mem_plusRun_cls (p : Char → Bool) (n : Nat) (s s' : MatchState)
    (hn : s.rest.length < n) :
    s' ∈ plusRun (Regexp.cls p).run n s
      ↔ ∃ pre post, pre ≠ [] ∧ s.rest = pre ++ post ∧ (∀ c ∈ pre, p c = true)
          ∧ s' = { pos := s.pos + pre.length, rest := post, caps := s.caps } := by
  induction n generalizing s with
  | zero => omega
  | succ k ih =>
    simp only [plusRun, List.mem_flatMap, List.mem_append, List.mem_singleton]
    constructor
    · rintro ⟨s1, h1, h2⟩
      obtain ⟨c, cs, hrest, hpc, hs1⟩ := (mem_run_cls p s s1).mp h1
      have hlt : s1.rest.length < s.rest.length := by
        rw [hs1, hrest]
        simp
      rw [if_pos hlt] at h2
      rcases h2 with h2 | h2
      · have hk : s1.rest.length < k := by omega
        obtain ⟨pre, post, hne, hr, hall, hs'⟩ := (ih s1 hk).mp h2
        refine ⟨c :: pre, post, List.cons_ne_nil _ _, ?_, ?_, ?_⟩
        · rw [hrest]
          rw [hs1] at hr
          simp only at hr
          rw [hr]
          rfl
        · intro x hx
          rcases List.mem_cons.mp hx with hx | hx
          · rw [hx]; exact hpc
          · exact hall x hx
        · rw [hs', hs1]
          simp only [List.length_cons, MatchState.mk.injEq, and_true]
          omega
      · refine ⟨[c], cs, List.cons_ne_nil _ _, ?_, ?_, ?_⟩
        · rw [hrest]; rfl
        · intro x hx
          rw [List.mem_singleton.mp hx]; exact hpc
        · rw [h2, hs1]; rfl
    · rintro ⟨pre, post, hne, hr, hall, hs'⟩
      cases pre with
      | nil => exact absurd rfl hne
      | cons c pre' =>
        have hpc : p c = true := hall c (List.mem_cons_self _ _)
        refine ⟨{ pos := s.pos + 1, rest := pre' ++ post, caps := s.caps }, ?_, ?_⟩
        · exact (mem_run_cls p s _).mpr ⟨c, pre' ++ post, hr, hpc, rfl⟩
        · have hlt : (pre' ++ post).length < s.rest.length := by
            rw [hr]; simp
          simp only [hlt, if_true]
          cases pre' with
          | nil =>
            right
            rw [hs']; rfl
          | cons c2 pre2 =>
            left
            have hk : (c2 :: pre2 ++ post).length < k := by
              rw [hr] at hn
              simp at hn ⊢
              omega
            refine (ih { pos := s.pos + 1, rest := c2 :: pre2 ++ post, caps := s.caps }
              hk).mpr ⟨c2 :: pre2, post, List.cons_ne_nil _ _, rfl, ?_, ?_⟩
            · intro x hx
              exact hall x (List.mem_cons_of_mem _ hx)
            · rw [hs']
              simp only [List.length_cons, MatchState.mk.injEq, and_true]
              omega

theorem mem_run_plus_cls (p : Char → Bool) (s s' : MatchState) :
    s' ∈ (Regexp.plus (Regexp.cls p)).run s
      ↔ ∃ pre post, pre ≠ [] ∧ s.rest = pre ++ post ∧ (∀ c ∈ pre, p c = true)
          ∧ s' = { pos := s.pos + pre.length, rest := post, caps := s.caps } := by
  simp only [Regexp.run]
  exact mem_plusRun_cls p (s.rest.length + 1) s s' (Nat.lt_succ_self _)

theorem wordChar_ne_slash (c : Char) (h : isWordChar c = true) : c ≠ '/' := by
  intro e
  rw [e] at h
  exact absurd h (by decide)

theorem digitChar_ne_sign (c : Char) (h : isDigitChar c = true) : c ≠ '+' ∧ c ≠ '-' := by
  constructor <;> intro e <;> rw [e] at h <;> exact absurd h (by decide)

/-- A text splits in at most one way into a slash-free part, a slash and a remainder. -/
theorem split_at_slash_unique (w w' d d' : List Char) (hw : ∀ c ∈ w, c ≠ '/')
    (hw' : ∀ c ∈ w', c ≠ '/') (h : w ++ '/' :: d = w' ++ '/' :: d') : w = w' ∧ d = d' := by
  induction w generalizing w' with
  | nil =>
    cases w' with
    | nil => simpa using h
    | cons c cs =>
      simp only [List.nil_append, List.cons_append, List.cons.injEq] at h
      exact absurd h.1.symm (hw' c (List.mem_cons_self _ _))
  | cons x xs ih =>
    cases w' with
    | nil =>
      simp only [List.nil_append, List.cons_append, List.cons.injEq] at h
      exact absurd h.1 (hw x (List.mem_cons_self _ _))
    | cons c cs =>
      simp only [List.cons_append, List.cons.injEq] at h
      obtain ⟨h1, h2⟩ := ih cs (fun y hy => hw y (List.mem_cons_of_mem _ hy))
        (fun y hy => hw' y (List.mem_cons_of_mem _ hy)) h.2
      exact ⟨by rw [h.1, h1], h2⟩

/-- The matches of `^/\w+/(\d+)$` at the start of a text: the text has the shape
slash, word characters, slash, digits, and the group holds the digits. -/
theorem mem_run_urlIdRegexp (input : List Char) (s' : MatchState) :
    s' ∈ urlIdRegexp.run { pos := 0, rest := input, caps := [] }
      ↔ ∃ w d, input = '/' :: w ++ '/' :: d ∧ w ≠ [] ∧ (∀ c ∈ w, isWordChar c = true)
          ∧ d ≠ [] ∧ (∀ c ∈ d, isDigitChar c = true)
          ∧ s' = { pos := input.length, rest := [], caps := [(1, d)] } := by
  simp only [urlIdRegexp, mem_run_cat, mem_run_beginText, mem_run_lit, mem_run_plus_cls,
    mem_run_capture, mem_run_endText]
  constructor
  · rintro ⟨s0, ⟨-, rfl⟩, s1, ⟨r1, hr1, rfl⟩, s2, ⟨w, post, hw, hsplit, hwall, rfl⟩, s3,
      ⟨r3, hr3, rfl⟩, s4, ⟨s5, ⟨d, post2, hd, hsplit2, hdall, rfl⟩, rfl⟩, hend, rfl⟩
    simp only at hr1 hsplit hr3 hsplit2 hend
    subst hend
    subst hsplit2
    subst hr3
    subst hsplit
    subst hr1
    refine ⟨w, d, by simp, hw, hwall, hd, hdall, ?_⟩
    simp only [List.append_nil, MatchState.mk.injEq, List.cons.injEq, Prod.mk.injEq,
      true_and, and_true, List.length_cons, List.length_append]
    refine ⟨by omega, ?_⟩
    have : 0 + 1 + w.length + 1 + d.length - (0 + 1 + w.length + 1) = d.length := by omega
    rw [this, List.take_length]
  · rintro ⟨w, d, rfl, hw, hwall, hd, hdall, rfl⟩
    refine ⟨_, ⟨trivial, rfl⟩, _, ⟨w ++ '/' :: d, rfl, rfl⟩, _, ⟨w, '/' :: d, hw, rfl, hwall, rfl⟩,
      _, ⟨d, rfl, rfl⟩, _, ⟨_, ⟨d, [], hd, by simp, hdall, rfl⟩, rfl⟩, rfl, ?_⟩
    simp only [List.append_nil, MatchState.mk.injEq, List.cons.injEq, Prod.mk.injEq,
      true_and, and_true, List.length_cons, List.length_append]
    refine ⟨by omega, ?_⟩
    have : 0 + 1 + w.length + 1 + d.length - (0 + 1 + w.length + 1) = d.length := by omega
    rw [this, List.take_length]

theorem run_urlIdRegexp_of_pos (s : MatchState) (hs : s.pos ≠ 0) : urlIdRegexp.run s = [] := by
  simp [urlIdRegexp, Regexp.run, hs]

theorem search_urlIdRegexp_of_pos (rest : List Char) (pos : Nat) (hp : pos ≠ 0) :
    urlIdRegexp.search pos rest = none := by
  induction rest generalizing pos with
  | nil =>
    simp only [Regexp.search]
    rw [run_urlIdRegexp_of_pos _ hp]
    rfl
  | cons c cs ih =>
    simp only [Regexp.search]
    rw [run_urlIdRegexp_of_pos _ hp]
    exact ih (pos + 1) (by omega)

theorem search_urlIdRegexp (input : List Char) :
    urlIdRegexp.search 0 input
      = (urlIdRegexp.run { pos := 0, rest := input, caps := [] }).head?.map
          (fun s1 => (0, input, s1)) := by
  cases input with
  | nil => rfl
  | cons c cs =>
    simp only [Regexp.search]
    cases h : urlIdRegexp.run { pos := 0, rest := c :: cs, caps := [] } with
    | nil => simpa using search_urlIdRegexp_of_pos cs 1 (by omega)
    | cons s1 l => rfl

/-- `FindStringSubmatch` on a path of the shape: the whole path and the digits. -/
theorem FindStringSubmatch_of_isIdPath (path : String) (w d : List Char)
    (h : isIdPath path w d) :
    urlIdRegexp.FindStringSubmatch 1 path = [path, String.mk d] := by
  obtain ⟨hdata, hw, hwall, hd, hdall⟩ := h
  have hmem := (mem_run_urlIdRegexp path.data
    { pos := path.data.length, rest := [], caps := [(1, d)] }).mpr
    ⟨w, d, hdata, hw, hwall, hd, hdall, rfl⟩
  cases hrun : urlIdRegexp.run { pos := 0, rest := path.data, caps := [] } with
  | nil => rw [hrun] at hmem; exact absurd hmem (List.not_mem_nil _)
  | cons s1 l =>
    have hs1 : s1 ∈ urlIdRegexp.run { pos := 0, rest := path.data, caps := [] } := by
      rw [hrun]; exact List.mem_cons_self _ _
    obtain ⟨w', d', hdata', -, hwall', -, -, hs1eq⟩ := (mem_run_urlIdRegexp _ _).mp hs1
    have hsame : w' ++ '/' :: d' = w ++ '/' :: d := by
      have := hdata'.symm.trans hdata
      simpa using this
    obtain ⟨-, hdd⟩ := split_at_slash_unique w' w d' d
      (fun c hc => wordChar_ne_slash c (hwall' c hc))
      (fun c hc => wordChar_ne_slash c (hwall c hc)) hsame
    subst hdd
    simp only [Regexp.FindStringSubmatch, search_urlIdRegexp, hrun, List.head?_cons,
      Option.map_some', hs1eq]
    simp only [List.range_succ, List.range_zero, List.nil_append, List.map_cons, List.map_nil,
      List.lookup, Nat.sub_zero, zero_add, beq_self_eq_true, Option.getD_some,
      List.take_length]

/-- `FindStringSubmatch` on any other path: no match. -/
theorem FindStringSubmatch_of_not_isIdPath (path : String)
    (h : ¬ ∃ w d, isIdPath path w d) : urlIdRegexp.FindStringSubmatch 1 path = [] := by
  cases hrun : urlIdRegexp.run { pos := 0, rest := path.data, caps := [] } with
  | nil => simp [Regexp.FindStringSubmatch, search_urlIdRegexp, hrun]
  | cons s1 l =>
    exfalso
    have hs1 : s1 ∈ urlIdRegexp.run { pos := 0, rest := path.data, caps := [] } := by
      rw [hrun]; exact List.mem_cons_self _ _
    obtain ⟨w, d, hdata, hw, hwall, hd, hdall, -⟩ := (mem_run_urlIdRegexp _ _).mp hs1
    exact h ⟨w, d, hdata, hw, hwall, hd, hdall⟩

/-! ## `Atoi` and `ParseUrlId` -/

/-- `Atoi` on one or more decimal digits: the value when it fits in `int`, a range error
otherwise. -/
theorem Atoi_digits (d : List Char) (hd : d ≠ []) (hall : ∀ c ∈ d, isDigitChar c = true) :
    (((decimalValue d : Nat) : Int) ≤ maxInt64 →
        Atoi (String.mk d) = (((decimalValue d : Nat) : Int), none)) ∧
    (¬ ((decimalValue d : Nat) : Int) ≤ maxInt64 → ∃ e, Atoi (String.mk d) = (maxInt64, some e)) := by
  cases d with
  | nil => exact absurd rfl hd
  | cons c cs =>
    obtain ⟨hplus, hminus⟩ := digitChar_ne_sign c (hall c (List.mem_cons_self _ _))
    have hdigits : (match (String.mk (c :: cs)).data with
        | '+' :: r => r
        | '-' :: r => r
        | r => r) = c :: cs := by
      show (match c :: cs with
        | '+' :: r => r
        | '-' :: r => r
        | r => r) = c :: cs
      split
      · rename_i r heq
        exact absurd (List.cons.inj heq).1 hplus
      · rename_i r heq
        exact absurd (List.cons.inj heq).1 hminus
      · rfl
    have hallb : (c :: cs).all isDigitChar = true := List.all_eq_true.mpr hall
    have hhead : ¬ ((String.mk (c :: cs)).data.head? = some '-') := by
      show ¬ (some c = some '-')
      intro e
      exact hminus (Option.some.inj e)
    have hnn : ¬ (((decimalValue (c :: cs) : Nat) : Int) < minInt64) := by
      unfold minInt64
      omega
    constructor
    · intro hle
      have hgt : ¬ (((decimalValue (c :: cs) : Nat) : Int) > maxInt64) := by omega
      simp only [Atoi, hdigits, hallb, hhead, hgt, hnn, if_false]
      simp
    · intro hgt
      have hgt2 : ((decimalValue (c :: cs) : Nat) : Int) > maxInt64 := by omega
      refine ⟨"strconv.Atoi: parsing "
        ++ (String.singleton (Char.ofNat 34) ++ String.mk (c :: cs) ++ String.singleton (Char.ofNat 34))
        ++ ": value out of range", ?_⟩
      simp only [Atoi, hdigits, hallb, hhead, hgt2, if_false, if_true]
      simp

theorem ParseUrlId_of_isIdPath (path : String) (w d : List Char) (h : isIdPath path w d) :
    (((decimalValue d : Nat) : Int) ≤ maxInt64 →
        ParseUrlId path = (((decimalValue d : Nat) : Int), none)) ∧
    (¬ ((decimalValue d : Nat) : Int) ≤ maxInt64 → ∃ e, ParseUrlId path = (0, some e)) := by
  have hfind := FindStringSubmatch_of_isIdPath path w d h
  obtain ⟨-, -, -, hd, hdall⟩ := h
  obtain ⟨hok, herr⟩ := Atoi_digits d hd hdall
  constructor
  · intro hle
    simp [ParseUrlId, hfind, hok hle]
  · intro hgt
    obtain ⟨e, he⟩ := herr hgt
    exact ⟨e, by simp [ParseUrlId, hfind, he]⟩

theorem ParseUrlId_of_not_isIdPath (path : String) (h : ¬ ∃ w d, isIdPath path w d) :
    ParseUrlId path = (0, some "id not found") := by
  simp [ParseUrlId, FindStringSubmatch_of_not_isIdPath path h]

/-- C8. `ParseUrlId` returns `(n, nil)` exactly when the whole path is a slash, one or more
word characters, a slash and one or more ASCII decimal digits whose value `n` fits in `int`; on
every other path it returns id 0 with a non-nil error, as on the paths of the test, on a
negative id, an extra segment, a missing id, a missing leading slash, a single segment and on
digits that overflow `int`. -/
theorem C8_parseUrlId_accepts_exactly_id_paths :
    (∀ (path : String) (n : Int),
        ParseUrlId path = (n, none)
          ↔ ∃ w d, isIdPath path w d ∧ ((decimalValue d : Nat) : Int) = n ∧ n ≤ maxInt64) ∧
    (∀ path : String,
        (¬ ∃ w d, isIdPath path w d ∧ ((decimalValue d : Nat) : Int) ≤ maxInt64) →
        (ParseUrlId path).1 = 0 ∧ (ParseUrlId path).2 ≠ none) ∧
    ParseUrlId "/hash/1" = (1, none) ∧
    ParseUrlId "/hash/123456789" = (123456789, none) ∧
    ParseUrlId "/hash/9223372036854775807" = (9223372036854775807, none) ∧
    ParseUrlId "/hash/-1" = (0, some "id not found") ∧
    ParseUrlId "/hash/1/2" = (0, some "id not found") ∧
    ParseUrlId "/123a" = (0, some "id not found") ∧
    ParseUrlId "/blahblah/" = (0, some "id not found") ∧
    ParseUrlId "blahblah/" = (0, some "id not found") ∧
    (ParseUrlId "/hash/9223372036854775808").1 = 0 ∧
    (ParseUrlId "/hash/9223372036854775808").2 ≠ none := by
  refine ⟨?_, ?_, by decide, by decide, by decide, by decide, by decide, by decide, by decide,
    by decide, by decide, by decide⟩
  · intro path n
    constructor
    · intro hp
      by_cases hshape : ∃ w d, isIdPath path w d
      · obtain ⟨w, d, hwd⟩ := hshape
        obtain ⟨hok, herr⟩ := ParseUrlId_of_isIdPath path w d hwd
        by_cases hle : ((decimalValue d : Nat) : Int) ≤ maxInt64
        · rw [hok hle] at hp
          have hn : ((decimalValue d : Nat) : Int) = n := (Prod.mk.inj hp).1
          exact ⟨w, d, hwd, hn, by rw [← hn]; exact hle⟩
        · obtain ⟨e, he⟩ := herr hle
          rw [he] at hp
          exact absurd (Prod.mk.inj hp).2 (by simp)
      · rw [ParseUrlId_of_not_isIdPath path hshape] at hp
        exact absurd (Prod.mk.inj hp).2 (by simp)
    · rintro ⟨w, d, hwd, hn, hle⟩
      rw [← hn] at hle
      rw [(ParseUrlId_of_isIdPath path w d hwd).1 hle, hn]
  · intro path hno
    by_cases hshape : ∃ w d, isIdPath path w d
    · obtain ⟨w, d, hwd⟩ := hshape
      have hgt : ¬ ((decimalValue d : Nat) : Int) ≤ maxInt64 := fun hle => hno ⟨w, d, hwd, hle⟩
      obtain ⟨e, he⟩ := (ParseUrlId_of_isIdPath path w d hwd).2 hgt
      rw [he]
      exact ⟨rfl, by simp⟩
    · rw [ParseUrlId_of_not_isIdPath path hshape]
      exact ⟨rfl, by simp⟩

/-- Instance of C8: the path with a negative id is none of the accepted paths, so it is
answered with id 0 and an error. -/
theorem C8_parseUrlId_accepts_exactly_id_paths_witness :
    (ParseUrlId "/hash/-1").1 = 0 ∧ (ParseUrlId "/hash/-1").2 ≠ none :=
  C8_parseUrlId_accepts_exactly_id_paths.2.1 "/hash/-1" (by
    rintro ⟨w, d, hwd, hle⟩
    have hp := (C8_parseUrlId_accepts_exactly_id_paths.1 "/hash/-1"
      ((decimalValue d : Nat) : Int)).mpr ⟨w, d, hwd, rfl, hle⟩
    have hev : ParseUrlId "/hash/-1" = (0, some "id not found") := by decide
    rw [hev] at hp
    exact absurd (Prod.mk.inj hp).2 (by simp))

/-! ## The served system -/

theorem Inv_NewHashServer : NewHashServer.Inv := by
  refine ⟨rfl, ?_, ?_, ?_⟩
  · intro id hid
    simp [NewHashServer] at hid
  · intro h
    simp [NewHashServer] at h
  · intro _
    rfl

theorem GetHashHandler_world (w : World) (method path : String) :
    (GetHashHandler w method path).2 = w := by
  unfold GetHashHandler
  split
  · split
    · rfl
    · split <;> rfl
  · rfl

theorem GetStatsHandler_world (w : World) (method : String) :
    (GetStatsHandler w method).2 = w := by
  unfold GetStatsHandler
  split <;> rfl

theorem Inv_PostHashHandler (w : World) (method : String)
    (form : Option (String × List String)) (timeNow : Int) (hopen : w.hs.serverClosed = false)
    (hinv : w.Inv) : (PostHashHandler w method form timeNow).2.Inv := by
  obtain ⟨h1, h2, h3, h4⟩ := hinv
  unfold PostHashHandler
  split
  · cases form with
    | none => exact ⟨h1, h2, h3, h4⟩
    | some password =>
      refine ⟨?_, ?_, ?_, ?_⟩
      · simp only [List.length_append, List.length_singleton]
        rw [h1]
        push_cast
        rfl
      · intro id hid
        simp only [List.mem_append, List.mem_singleton] at hid
        rcases hid with hid | hid
        · rcases h2 id hid with ⟨t, ht, hti⟩ | hrec
          · left
            exact ⟨t, List.mem_append_left _ ht, hti⟩
          · right
            exact hrec
        · left
          exact ⟨_, List.mem_append_right _ (List.mem_singleton_self _), hid.symm⟩
      · intro h
        exact h3 h
      · intro h
        have := h3 (Or.inr h)
        rw [hopen] at this
        exact absurd this (by decide)
  · exact ⟨h1, h2, h3, h4⟩

theorem Inv_GetShutdownHandler (w : World) (method : String) (hinv : w.Inv) :
    (GetShutdownHandler w method).2.Inv := by
  obtain ⟨h1, h2, h3, h4⟩ := hinv
  unfold GetShutdownHandler
  split
  · exact ⟨h1, h2, h3, h4⟩
  · exact ⟨h1, h2, h3, h4⟩

theorem Inv_taskDone (w w' : World) (i : Nat) (now : Int) (hstep : w.taskDone i now = some w')
    (hinv : w.Inv) : w'.Inv := by
  obtain ⟨h1, h2, h3, h4⟩ := hinv
  unfold World.taskDone at hstep
  cases ht : w.tasks[i]? with
  | none => rw [ht] at hstep; exact Option.noConfusion hstep
  | some t =>
    rw [ht] at hstep
    simp only [Option.some.injEq] at hstep
    subst hstep
    have hi : i < w.tasks.length := by
      by_contra hge
      rw [List.getElem?_eq_none (by omega)] at ht
      exact Option.noConfusion ht
    refine ⟨?_, ?_, ?_, ?_⟩
    · simp only [List.length_eraseIdx, hi, if_true]
      rw [h1]
      omega
    · intro id hid
      rcases h2 id hid with ⟨t', ht', hti⟩ | hrec
      · obtain ⟨j, hj⟩ := List.mem_iff_getElem?.mp ht'
        by_cases hji : j = i
        · right
          rw [hji, ht] at hj
          have htt : t = t' := Option.some.inj hj
          subst htt
          subst hti
          simp [Hasher.Add, mapLookup_mapAssign_self]
        · left
          exact ⟨t', List.mem_eraseIdx_iff_getElem?.mpr ⟨j, hji, hj⟩, hti⟩
      · right
        exact step_lookup_isSome w.hs.hasher (HasherOp.add t.id t.password t.timeNow now) id hrec
    · intro h
      exact h3 h
    · intro h
      have := h4 h
      rw [this] at ht
      simp at ht

theorem Inv_shutdownReturns (w w' : World) (hstep : w.shutdownReturns = some w')
    (hinv : w.Inv) : w'.Inv := by
  obtain ⟨h1, h2, h3, h4⟩ := hinv
  unfold World.shutdownReturns at hstep
  split at hstep
  · exact Option.noConfusion hstep
  · simp only [Option.some.injEq] at hstep
    subst hstep
    exact ⟨h1, h2, fun _ => rfl, h4⟩

theorem Inv_waitReturns (w w' : World) (hstep : w.waitReturns = some w')
    (hinv : w.Inv) : w'.Inv := by
  obtain ⟨h1, h2, h3, h4⟩ := hinv
  unfold World.waitReturns at hstep
  split at hstep
  · exact Option.noConfusion hstep
  · rename_i hguard
    simp only [Option.some.injEq] at hstep
    subst hstep
    have hw : 0 < w.inWait := by
      by_contra hz
      exact hguard (Or.inl (by omega))
    have hz : w.hs.waitGroup = 0 := by
      by_contra hnz
      exact hguard (Or.inr hnz)
    have htasks : w.tasks = [] := by
      rw [h1] at hz
      exact List.length_eq_zero.mp (by exact_mod_cast hz)
    exact ⟨h1, h2, fun _ => h3 (Or.inl hw), fun _ => htasks⟩

theorem Inv_closeShutdown (w w' : World) (hstep : w.closeShutdown = some w')
    (hinv : w.Inv) : w'.Inv := by
  obtain ⟨h1, h2, h3, h4⟩ := hinv
  unfold World.closeShutdown at hstep
  split at hstep
  · exact Option.noConfusion hstep
  · rename_i hguard
    have hc : 0 < w.atClose := by omega
    split at hstep
    · simp only [Option.some.injEq] at hstep
      subst hstep
      exact ⟨h1, h2, fun _ => h3 (Or.inr (Or.inl hc)), fun _ => h4 (Or.inl hc)⟩
    · simp only [Option.some.injEq] at hstep
      subst hstep
      exact ⟨h1, h2, fun _ => h3 (Or.inr (Or.inl hc)), fun _ => h4 (Or.inl hc)⟩

theorem Inv_step (w w' : World) (ev : Event) (hstep : w.step ev = some w') (hinv : w.Inv) :
    w'.Inv := by
  unfold World.step at hstep
  split at hstep
  · exact Option.noConfusion hstep
  · cases ev with
    | postHash method form timeNow =>
      simp only at hstep
      split at hstep
      · exact Option.noConfusion hstep
      · rename_i hopen
        simp only [Option.some.injEq] at hstep
        subst hstep
        exact Inv_PostHashHandler w method form timeNow (by simpa using hopen) hinv
    | getHash method path =>
      simp only at hstep
      split at hstep
      · exact Option.noConfusion hstep
      · simp only [Option.some.injEq] at hstep
        subst hstep
        rw [GetHashHandler_world]
        exact hinv
    | getStats method =>
      simp only at hstep
      split at hstep
      · exact Option.noConfusion hstep
      · simp only [Option.some.injEq] at hstep
        subst hstep
        rw [GetStatsHandler_world]
        exact hinv
    | getShutdown method =>
      simp only at hstep
      split at hstep
      · exact Option.noConfusion hstep
      · simp only [Option.some.injEq] at hstep
        subst hstep
        exact Inv_GetShutdownHandler w method hinv
    | taskDone i now => exact Inv_taskDone w w' i now hstep hinv
    | shutdownReturns => exact Inv_shutdownReturns w w' hstep hinv
    | waitReturns => exact Inv_waitReturns w w' hstep hinv
    | closeShutdown => exact Inv_closeShutdown w w' hstep hinv

theorem Inv_exec (evs : List Event) (w : World) (hinv : w.Inv) : (w.exec evs).Inv := by
  induction evs generalizing w with
  | nil => exact hinv
  | cons ev evs ih =>
    simp only [World.exec]
    cases hs : w.step ev with
    | none => exact ih w hinv
    | some w' => exact ih w' (Inv_step w w' ev hs hinv)

/-- C5. In every state the served system reaches from `NewHashServer` (requests handled by the
four handlers while the server serves, task goroutines completing, shutdown goroutines leaving
`Shutdown`, leaving `Wait` and closing the channel, in any order), if the shutdown channel is
closed then the wait group counter is zero, no task goroutine is running, and every id issued
so far has a record that `Get` returns. -/
theorem C5_channel_closed_only_after_drain (evs : List Event)
    (hclosed : (NewHashServer.exec evs).hs.shutdown = true) :
    (NewHashServer.exec evs).hs.waitGroup = 0 ∧
    (NewHashServer.exec evs).tasks = [] ∧
    ∀ id ∈ (NewHashServer.exec evs).issued,
      ∃ d, (NewHashServer.exec evs).hs.hasher.Get id = (d, none) := by
  obtain ⟨h1, h2, -, h4⟩ := Inv_exec evs NewHashServer Inv_NewHashServer
  have htasks := h4 (Or.inr hclosed)
  refine ⟨by rw [h1, htasks]; rfl, htasks, ?_⟩
  intro id hid
  rcases h2 id hid with ⟨t, ht, -⟩ | hrec
  · rw [htasks] at ht
    exact absurd ht (List.not_mem_nil _)
  · obtain ⟨v, hv⟩ := Option.isSome_iff_exists.mp hrec
    exact ⟨v, (Get_eq_ok_iff _ _ _).mpr hv⟩

/-- Instance of C5: a submission, the shutdown trigger while the task still sleeps, the task
completing, then the drain finishing. -/
theorem C5_channel_closed_only_after_drain_witness :
    (NewHashServer.exec
        [Event.postHash "POST" (some ("angryMonkey", [])) 0, Event.getShutdown "GET",
         Event.shutdownReturns, Event.waitReturns, Event.taskDone 0 5000000000,
         Event.waitReturns, Event.closeShutdown]).hs.waitGroup = 0 ∧
    (NewHashServer.exec
        [Event.postHash "POST" (some ("angryMonkey", [])) 0, Event.getShutdown "GET",
         Event.shutdownReturns, Event.waitReturns, Event.taskDone 0 5000000000,
         Event.waitReturns, Event.closeShutdown]).tasks = [] ∧
    ∀ id ∈ (NewHashServer.exec
        [Event.postHash "POST" (some ("angryMonkey", [])) 0, Event.getShutdown "GET",
         Event.shutdownReturns, Event.waitReturns, Event.taskDone 0 5000000000,
         Event.waitReturns, Event.closeShutdown]).issued,
      ∃ d, (NewHashServer.exec
        [Event.postHash "POST" (some ("angryMonkey", [])) 0, Event.getShutdown "GET",
         Event.shutdownReturns, Event.waitReturns, Event.taskDone 0 5000000000,
         Event.waitReturns, Event.closeShutdown]).hs.hasher.Get id = (d, none) :=
  C5_channel_closed_only_after_drain
    [Event.postHash "POST" (some ("angryMonkey", [])) 0, Event.getShutdown "GET",
     Event.shutdownReturns, Event.waitReturns, Event.taskDone 0 5000000000,
     Event.waitReturns, Event.closeShutdown] (by rfl)

/-! ## The shutdown state -/

theorem rank_shutdownState_of_closed (w : World) (h : w.hs.shutdown = true) :
    w.shutdownState = ShutdownState.Stopped := by
  simp [World.shutdownState, h]

theorem PostHashHandler_shutdown_fields (w : World) (method : String)
    (form : Option (String × List String)) (timeNow : Int) :
    (PostHashHandler w method form timeNow).2.hs.shutdown = w.hs.shutdown ∧
    (PostHashHandler w method form timeNow).2.inShutdown = w.inShutdown ∧
    (PostHashHandler w method form timeNow).2.inWait = w.inWait ∧
    (PostHashHandler w method form timeNow).2.atClose = w.atClose := by
  unfold PostHashHandler
  split
  · cases form with
    | none => exact ⟨rfl, rfl, rfl, rfl⟩
    | some password => exact ⟨rfl, rfl, rfl, rfl⟩
  · exact ⟨rfl, rfl, rfl, rfl⟩

theorem shutdownState_PostHashHandler (w : World) (method : String)
    (form : Option (String × List String)) (timeNow : Int) :
    (PostHashHandler w method form timeNow).2.shutdownState = w.shutdownState := by
  obtain ⟨h1, h2, h3, h4⟩ := PostHashHandler_shutdown_fields w method form timeNow
  simp only [World.shutdownState, h1, h2, h3, h4]

theorem rank_GetShutdownHandler (w : World) (method : String) :
    w.shutdownState.rank ≤ (GetShutdownHandler w method).2.shutdownState.rank ∧
    (GetShutdownHandler w method).2.shutdownState.rank ≤ w.shutdownState.rank + 1 := by
  unfold GetShutdownHandler
  split
  · simp only [World.shutdownState]
    split
    · exact ⟨Nat.le_refl _, Nat.le_succ _⟩
    · split
      · have hne : ¬ (w.inShutdown + 1 + w.inWait + w.atClose = 0) := by omega
        simp only [hne, if_false, ShutdownState.rank]
        omega
      · rename_i hne
        have hne2 : ¬ (w.inShutdown + 1 + w.inWait + w.atClose = 0) := by omega
        simp only [hne2, if_false, ShutdownState.rank]
        omega
  · exact ⟨Nat.le_refl _, Nat.le_succ _⟩

/-- One step never moves the shutdown state backwards and moves it forward by at most one
stage. -/
theorem rank_step (w w' : World) (ev : Event) (hstep : w.step ev = some w') :
    w.shutdownState.rank ≤ w'.shutdownState.rank ∧
    w'.shutdownState.rank ≤ w.shutdownState.rank + 1 := by
  unfold World.step at hstep
  split at hstep
  · exact Option.noConfusion hstep
  · cases ev with
    | postHash method form timeNow =>
      simp only at hstep
      split at hstep
      · exact Option.noConfusion hstep
      · simp only [Option.some.injEq] at hstep
        subst hstep
        rw [shutdownState_PostHashHandler]
        exact ⟨Nat.le_refl _, Nat.le_succ _⟩
    | getHash method path =>
      simp only at hstep
      split at hstep
      · exact Option.noConfusion hstep
      · simp only [Option.some.injEq] at hstep
        subst hstep
        rw [GetHashHandler_world]
        exact ⟨Nat.le_refl _, Nat.le_succ _⟩
    | getStats method =>
      simp only at hstep
      split at hstep
      · exact Option.noConfusion hstep
      · simp only [Option.some.injEq] at hstep
        subst hstep
        rw [GetStatsHandler_world]
        exact ⟨Nat.le_refl _, Nat.le_succ _⟩
    | getShutdown method =>
      simp only at hstep
      split at hstep
      · exact Option.noConfusion hstep
      · simp only [Option.some.injEq] at hstep
        subst hstep
        exact rank_GetShutdownHandler w method
    | taskDone i now =>
      simp only [World.taskDone] at hstep
      cases ht : w.tasks[i]? with
      | none => rw [ht] at hstep; exact Option.noConfusion hstep
      | some t =>
        rw [ht] at hstep
        simp only [Option.some.injEq] at hstep
        subst hstep
        simp only [World.shutdownState]
        exact ⟨Nat.le_refl _, Nat.le_succ _⟩
    | shutdownReturns =>
      simp only [World.shutdownReturns] at hstep
      split at hstep
      · exact Option.noConfusion hstep
      · rename_i hguard
        simp only [Option.some.injEq] at hstep
        subst hstep
        have e : w.inShutdown - 1 + (w.inWait + 1) + w.atClose
            = w.inShutdown + w.inWait + w.atClose := by omega
        simp only [World.shutdownState, e]
        exact ⟨Nat.le_refl _, Nat.le_succ _⟩
    | waitReturns =>
      simp only [World.waitReturns] at hstep
      split at hstep
      · exact Option.noConfusion hstep
      · rename_i hguard
        simp only [Option.some.injEq] at hstep
        subst hstep
        have hw : w.inWait ≠ 0 := fun hz => hguard (Or.inl hz)
        have e : w.inShutdown + (w.inWait - 1) + (w.atClose + 1)
            = w.inShutdown + w.inWait + w.atClose := by omega
        simp only [World.shutdownState, e]
        exact ⟨Nat.le_refl _, Nat.le_succ _⟩
    | closeShutdown =>
      simp only [World.closeShutdown] at hstep
      split at hstep
      · exact Option.noConfusion hstep
      · rename_i hguard
        split at hstep
        · rename_i hclosed
          simp only [Option.some.injEq] at hstep
          subst hstep
          simp only [World.shutdownState, hclosed, if_true]
          exact ⟨Nat.le_refl _, Nat.le_succ _⟩
        · rename_i hopen
          simp only [Option.some.injEq] at hstep
          subst hstep
          have hne : ¬ (w.inShutdown + w.inWait + w.atClose = 0) := by omega
          have hold : w.shutdownState = ShutdownState.Draining := by
            unfold World.shutdownState
            rw [if_neg hopen, if_neg hne]
          rw [hold]
          simp [World.shutdownState, ShutdownState.rank]

theorem rank_exec (evs : List Event) (w : World) :
    w.shutdownState.rank ≤ (w.exec evs).shutdownState.rank := by
  induction evs generalizing w with
  | nil => exact Nat.le_refl _
  | cons ev evs ih =>
    simp only [World.exec]
    cases hs : w.step ev with
    | none => exact ih w
    | some w' => exact Nat.le_trans (rank_step w w' ev hs).1 (ih w')

/-- In a stopped system, with the server closed and no task running, no step changes the fields
of the `HashServer`. -/
theorem step_hs_of_stopped (w w' : World) (ev : Event) (hstep : w.step ev = some w')
    (hclosed : w.hs.shutdown = true) (hserver : w.hs.serverClosed = true)
    (htasks : w.tasks = []) : w'.hs = w.hs ∧ w'.tasks = [] := by
  unfold World.step at hstep
  split at hstep
  · exact Option.noConfusion hstep
  · cases ev with
    | postHash method form timeNow => simp [hserver] at hstep
    | getHash method path => simp [hserver] at hstep
    | getStats method => simp [hserver] at hstep
    | getShutdown method => simp [hserver] at hstep
    | taskDone i now => simp [World.taskDone, htasks] at hstep
    | shutdownReturns =>
      simp only [World.shutdownReturns] at hstep
      split at hstep
      · exact Option.noConfusion hstep
      · simp only [Option.some.injEq] at hstep
        subst hstep
        refine ⟨?_, htasks⟩
        simp only
        rw [← hserver]
    | waitReturns =>
      simp only [World.waitReturns] at hstep
      split at hstep
      · exact Option.noConfusion hstep
      · simp only [Option.some.injEq] at hstep
        subst hstep
        exact ⟨rfl, htasks⟩
    | closeShutdown =>
      simp only [World.closeShutdown] at hstep
      split at hstep
      · exact Option.noConfusion hstep
      · simp only [hclosed, if_true, Option.some.injEq] at hstep
        subst hstep
        exact ⟨rfl, htasks⟩

theorem exec_hs_of_stopped (evs : List Event) (w : World) (hclosed : w.hs.shutdown = true)
    (hserver : w.hs.serverClosed = true) (htasks : w.tasks = []) : (w.exec evs).hs = w.hs := by
  induction evs generalizing w with
  | nil => rfl
  | cons ev evs ih =>
    simp only [World.exec]
    cases hs : w.step ev with
    | none => exact ih w hclosed hserver htasks
    | some w' =>
      obtain ⟨hhs, ht⟩ := step_hs_of_stopped w w' ev hs hclosed hserver htasks
      simp only [Option.getD_some]
      rw [ih w' (by rw [hhs]; exact hclosed) (by rw [hhs]; exact hserver) ht, hhs]

/-- C6 as stated fails: every GET handled by `GetShutdownHandler` starts a goroutine that ends
in `close(hs.shutdown)`. After the system has stopped, a second trigger leads to a close of the
closed channel, a run-time panic; the same happens when two triggers are handled while the
server still serves. -/
theorem C6_counterexample_second_trigger_panics :
    (NewHashServer.exec
        [Event.getShutdown "GET", Event.shutdownReturns, Event.waitReturns,
         Event.closeShutdown]).shutdownState = ShutdownState.Stopped ∧
    (NewHashServer.exec
        [Event.getShutdown "GET", Event.shutdownReturns, Event.waitReturns,
         Event.closeShutdown]).crashed = false ∧
    ((GetShutdownHandler
        (NewHashServer.exec
          [Event.getShutdown "GET", Event.shutdownReturns, Event.waitReturns,
           Event.closeShutdown]) "GET").2.exec
        [Event.shutdownReturns, Event.waitReturns, Event.closeShutdown]).crashed = true ∧
    (NewHashServer.exec
        [Event.getShutdown "GET", Event.getShutdown "GET", Event.shutdownReturns,
         Event.waitReturns, Event.closeShutdown, Event.shutdownReturns, Event.waitReturns,
         Event.closeShutdown]).crashed = true := by
  decide

/-- C6, amended. The shutdown state starts at Running, no step moves it backwards and every step
moves it forward by at most one stage, so along every run it goes Running, Draining, Stopped and
each transition happens at most once. A shutdown trigger handled after Stopped has been reached
leaves the state Stopped and changes neither the store, the id counter, the wait group counter
nor the closed channel, and nothing that happens afterwards changes them. -/
theorem C6_shutdown_state_monotonic :
    NewHashServer.shutdownState = ShutdownState.Running ∧
    (∀ (w w' : World) (ev : Event), w.step ev = some w' →
        w.shutdownState.rank ≤ w'.shutdownState.rank ∧
        w'.shutdownState.rank ≤ w.shutdownState.rank + 1) ∧
    (∀ (w : World) (evs later : List Event),
        (w.exec evs).shutdownState.rank ≤ ((w.exec evs).exec later).shutdownState.rank) ∧
    (∀ (evs later : List Event) (method : String),
        (NewHashServer.exec evs).shutdownState = ShutdownState.Stopped →
        (GetShutdownHandler (NewHashServer.exec evs) method).2.shutdownState
          = ShutdownState.Stopped ∧
        (GetShutdownHandler (NewHashServer.exec evs) method).2.hs = (NewHashServer.exec evs).hs ∧
        ((GetShutdownHandler (NewHashServer.exec evs) method).2.exec later).hs
          = (NewHashServer.exec evs).hs ∧
        ((GetShutdownHandler (NewHashServer.exec evs) method).2.exec later).shutdownState
          = ShutdownState.Stopped) := by
  refine ⟨by decide, rank_step, fun w evs later => rank_exec later (w.exec evs), ?_⟩
  intro evs later method hstopped
  have hclosed : (NewHashServer.exec evs).hs.shutdown = true := by
    cases hb : (NewHashServer.exec evs).hs.shutdown with
    | true => rfl
    | false =>
      unfold World.shutdownState at hstopped
      rw [hb] at hstopped
      simp only [Bool.false_eq_true, if_false] at hstopped
      split at hstopped <;> exact ShutdownState.noConfusion hstopped
  obtain ⟨-, -, h3, h4⟩ := Inv_exec evs NewHashServer Inv_NewHashServer
  have hserver := h3 (Or.inr (Or.inr hclosed))
  have htasks := h4 (Or.inr hclosed)
  have hhs : (GetShutdownHandler (NewHashServer.exec evs) method).2.hs
      = (NewHashServer.exec evs).hs := by
    unfold GetShutdownHandler
    split <;> rfl
  have htasks2 : (GetShutdownHandler (NewHashServer.exec evs) method).2.tasks = [] := by
    unfold GetShutdownHandler
    split <;> exact htasks
  have hlater := exec_hs_of_stopped later (GetShutdownHandler (NewHashServer.exec evs) method).2
    (by rw [hhs]; exact hclosed) (by rw [hhs]; exact hserver) htasks2
  refine ⟨rank_shutdownState_of_closed _ (by rw [hhs]; exact hclosed), hhs, ?_, ?_⟩
  · rw [hlater, hhs]
  · exact rank_shutdownState_of_closed _ (by rw [hlater, hhs]; exact hclosed)

/-- Instance of C6: after a complete shutdown, a second trigger and the steps of its goroutine
leave the fields of the server as they were. -/
theorem C6_shutdown_state_monotonic_witness :
    ((GetShutdownHandler
        (NewHashServer.exec
          [Event.postHash "POST" (some ("angryMonkey", [])) 0, Event.getShutdown "GET",
           Event.taskDone 0 5000000000, Event.shutdownReturns, Event.waitReturns,
           Event.closeShutdown]) "GET").2.exec
        [Event.shutdownReturns, Event.waitReturns]).hs
      = (NewHashServer.exec
          [Event.postHash "POST" (some ("angryMonkey", [])) 0, Event.getShutdown "GET",
           Event.taskDone 0 5000000000, Event.shutdownReturns, Event.waitReturns,
           Event.closeShutdown]).hs :=
  (C6_shutdown_state_monotonic.2.2.2
    [Event.postHash "POST" (some ("angryMonkey", [])) 0, Event.getShutdown "GET",
     Event.taskDone 0 5000000000, Event.shutdownReturns, Event.waitReturns,
     Event.closeShutdown]
    [Event.shutdownReturns, Event.waitReturns] "GET" (by rfl)).2.2.1

/-! ## `PostHashHandler` -/

/-- C10 as stated fails for the empty password: `PostHashHandler` only checks that the form has
the key. A POST with `password=` gets the next id, registers a task and, once the task has run,
the hash of the empty string is in the store. -/
theorem C10_counterexample_empty_password_accepted :
    PostHashHandler NewHashServer "POST" (some ("", [])) 0
      = ({ status := 200, body := Body.text "1" },
         { hs := { serverClosed := false, waitGroup := 1,
                   hasher := { idCounter := 1, hashes := [], stats := [] }, shutdown := false },
           tasks := [{ id := 1, password := "", timeNow := 0 }],
           inShutdown := 0, inWait := 0, atClose := 0, crashed := false, issued := [1] }) ∧
    (NewHashServer.exec
        [Event.postHash "POST" (some ("", [])) 0, Event.taskDone 0 5000000000]).hs.hasher.Get 1
      = (GenerateHash "", none) ∧
    (NewHashServer.exec
        [Event.postHash "POST" (some ("", [])) 0, Event.taskDone 0 5000000000]).hs.hasher.stats
      = [5000000000] := by
  refine ⟨by decide, ?_, by decide⟩
  exact Get_Add_self _ 1 "" 0 5000000000

/-- C10, amended. For every POST handled by `PostHashHandler` whose form has no password
parameter, the handler answers 400 `password parameter is required` and the state is the one
before the call: no `NextId`, no task registered, nothing written to the store, so the id
counter, the records, the latency log and the wait group counter are unchanged. -/
theorem C10_missing_password_rejected (w : World) (timeNow : Int) :
    PostHashHandler w "POST" none timeNow
      = ({ status := 400, body := Body.text "password parameter is required\n" }, w) ∧
    (PostHashHandler w "POST" none timeNow).2.hs.hasher.idCounter = w.hs.hasher.idCounter ∧
    (PostHashHandler w "POST" none timeNow).2.hs.hasher.hashes = w.hs.hasher.hashes ∧
    (PostHashHandler w "POST" none timeNow).2.hs.hasher.stats = w.hs.hasher.stats ∧
    (PostHashHandler w "POST" none timeNow).2.hs.waitGroup = w.hs.waitGroup ∧
    (PostHashHandler w "POST" none timeNow).2.tasks = w.tasks ∧
    (w.step (Event.postHash "POST" none timeNow)).getD w = w := by
  have h : PostHashHandler w "POST" none timeNow
      = ({ status := 400, body := Body.text "password parameter is required\n" }, w) := by
    simp [PostHashHandler, httpError]
  refine ⟨h, ?_, ?_, ?_, ?_, ?_, ?_⟩
  · rw [h]
  · rw [h]
  · rw [h]
  · rw [h]
  · rw [h]
  · simp only [World.step]
    split
    · rfl
    · split
      · rfl
      · rw [h]
        rfl

/-! ## Rounding in `GenerateStats` -/

theorem msTotal_eq_floorMsTotal (log : List Int) (hnn : ∀ t ∈ log, 0 ≤ t) :
    msTotal log = floorMsTotal log := by
  induction log with
  | nil => rfl
  | cons t ts ih =>
    have ht : Int.tdiv t 1000000 = t / 1000000 :=
      Int.tdiv_eq_ediv (hnn t (List.mem_cons_self _ _)) (by decide)
    have hts := ih (fun x hx => hnn x (List.mem_cons_of_mem _ hx))
    unfold msTotal floorMsTotal at hts ⊢
    simp only [List.map_cons, List.sum_cons, latencyMs, ht, hts]

/-- The sum of the truncated latencies, scaled back to nanoseconds, is at most the sum of the
latencies and misses it by less than one millisecond per entry. -/
theorem floorMsTotal_bounds (log : List Int) (hnn : ∀ t ∈ log, 0 ≤ t) :
    0 ≤ floorMsTotal log ∧
    1000000 * floorMsTotal log ≤ log.sum ∧
    log.sum + (log.length : Int) ≤ 1000000 * floorMsTotal log + 1000000 * (log.length : Int) := by
  induction log with
  | nil => simp [floorMsTotal]
  | cons t ts ih =>
    obtain ⟨h0, h1, h2⟩ := ih (fun x hx => hnn x (List.mem_cons_of_mem _ hx))
    have ht : 0 ≤ t := hnn t (List.mem_cons_self _ _)
    unfold floorMsTotal at h0 h1 h2 ⊢
    simp only [List.map_cons, List.sum_cons, List.length_cons]
    push_cast
    refine ⟨?_, ?_, ?_⟩ <;> omega

theorem Average_eq_floorMsTotal_div (h : Hasher) (hne : h.stats ≠ [])
    (hnn : ∀ t ∈ h.stats, 0 ≤ t) (hsum : floorMsTotal h.stats ≤ maxInt64) :
    h.GenerateStats.Average = floorMsTotal h.stats / (h.stats.length : Int) := by
  obtain ⟨h0, -, -⟩ := floorMsTotal_bounds h.stats hnn
  rw [GenerateStats_eq h hne, msTotal_eq_floorMsTotal h.stats hnn]
  have hin : inInt64 (floorMsTotal h.stats) := by
    unfold inInt64 minInt64
    exact ⟨by omega, hsum⟩
  rw [wrapInt64_of_inInt64 _ hin]
  exact Int.tdiv_eq_ediv h0 (Int.ofNat_nonneg _)

/-- The mean of the truncated latencies is the truncated exact mean or one less. -/
theorem floorMean_le_exactMean (log : List Int) (hne : log ≠ []) (hnn : ∀ t ∈ log, 0 ≤ t) :
    floorMsTotal log / (log.length : Int) ≤ exactMeanMs log ∧
    exactMeanMs log ≤ floorMsTotal log / (log.length : Int) + 1 := by
  obtain ⟨-, h1, h2⟩ := floorMsTotal_bounds log hnn
  have hk : 0 < (log.length : Int) := by
    have : 0 < log.length := List.length_pos.mpr hne
    exact_mod_cast this
  have hkm : 0 < (log.length : Int) * 1000000 := by omega
  have hlow : floorMsTotal log / (log.length : Int) * (log.length : Int) ≤ floorMsTotal log :=
    Int.ediv_mul_le _ (by omega)
  have hup : floorMsTotal log < (floorMsTotal log / (log.length : Int) + 1) * (log.length : Int) :=
    Int.lt_ediv_add_one_mul_self _ hk
  unfold exactMeanMs
  constructor
  · apply Int.le_ediv_of_mul_le hkm
    nlinarith
  · have hlt : log.sum / ((log.length : Int) * 1000000)
        < floorMsTotal log / (log.length : Int) + 2 := by
      apply Int.ediv_lt_of_lt_mul hkm
      nlinarith
    omega

theorem floorMsTotal_le_sum (log : List Int) (hnn : ∀ t ∈ log, 0 ≤ t) :
    floorMsTotal log ≤ log.sum := by
  obtain ⟨h0, h1, -⟩ := floorMsTotal_bounds log hnn
  omega

/-- C11. `GenerateStats` truncates each latency to whole milliseconds before summing: on every
non-empty log of non-negative latencies whose sum does not overflow `int64` (the sum of the
truncated latencies that the code forms, and so also when the sum of the latencies themselves
fits), the reported average `A` is the sum of floor(ns / 1000000) divided by the count, and with
the truncated exact mean `E` = floor(sum of ns / (count * 1000000)) it satisfies
`A <= E <= A + 1`. The two can differ: 1.9ms and 2.1ms give `A = 1` and `E = 2`. -/
theorem C11_average_within_one_of_exact_mean :
    (∀ h : Hasher, h.stats ≠ [] → (∀ t ∈ h.stats, 0 ≤ t) → floorMsTotal h.stats ≤ maxInt64 →
        h.GenerateStats.Average = floorMsTotal h.stats / (h.stats.length : Int) ∧
        h.GenerateStats.Average ≤ exactMeanMs h.stats ∧
        exactMeanMs h.stats ≤ h.GenerateStats.Average + 1) ∧
    (∀ h : Hasher, h.stats ≠ [] → (∀ t ∈ h.stats, 0 ≤ t) → h.stats.sum ≤ maxInt64 →
        h.GenerateStats.Average = floorMsTotal h.stats / (h.stats.length : Int) ∧
        h.GenerateStats.Average ≤ exactMeanMs h.stats ∧
        exactMeanMs h.stats ≤ h.GenerateStats.Average + 1) ∧
    (∀ (c : Int) (m : List (Int × String)),
        ({ idCounter := c, hashes := m, stats := [1900000, 2100000] } : Hasher).GenerateStats
          = { Total := 2, Average := 1 }) ∧
    exactMeanMs [1900000, 2100000] = 2 := by
  have main : ∀ h : Hasher, h.stats ≠ [] → (∀ t ∈ h.stats, 0 ≤ t) →
      floorMsTotal h.stats ≤ maxInt64 →
      h.GenerateStats.Average = floorMsTotal h.stats / (h.stats.length : Int) ∧
      h.GenerateStats.Average ≤ exactMeanMs h.stats ∧
      exactMeanMs h.stats ≤ h.GenerateStats.Average + 1 := by
    intro h hne hnn hsum
    have hA := Average_eq_floorMsTotal_div h hne hnn hsum
    obtain ⟨hle, hge⟩ := floorMean_le_exactMean h.stats hne hnn
    rw [hA]
    exact ⟨rfl, hle, hge⟩
  refine ⟨main, ?_, ?_, by decide⟩
  · intro h hne hnn hsum
    exact main h hne hnn (Int.le_trans (floorMsTotal_le_sum h.stats hnn) hsum)
  · intro c m
    rw [GenerateStats_eq _ (List.cons_ne_nil _ _)]
    show ({ Total := ((2 : Nat) : Int),
            Average := Int.tdiv (wrapInt64 (msTotal [1900000, 2100000])) ((2 : Nat) : Int) }
          : HashStats) = { Total := 2, Average := 1 }
    decide

/-- Instance of C11: latencies of 1.9ms, 2.1ms and 2.9ms; the reported average is 1, the
truncated exact mean is 2. -/
theorem C11_average_within_one_of_exact_mean_witness :
    ({ idCounter := 3, hashes := [], stats := [1900000, 2100000, 2900000] }
        : Hasher).GenerateStats.Average
      = floorMsTotal [1900000, 2100000, 2900000] / (([1900000, 2100000, 2900000] : List Int).length : Int) ∧
    ({ idCounter := 3, hashes := [], stats := [1900000, 2100000, 2900000] }
        : Hasher).GenerateStats.Average ≤ exactMeanMs [1900000, 2100000, 2900000] ∧
    exactMeanMs [1900000, 2100000, 2900000]
      ≤ ({ idCounter := 3, hashes := [], stats := [1900000, 2100000, 2900000] }
        : Hasher).GenerateStats.Average + 1 :=
  C11_average_within_one_of_exact_mean.2.1
    { idCounter := 3, hashes := [], stats := [1900000, 2100000, 2900000] }
    (by decide) (by decide) (by decide)

/-! ## `GenerateHash` -/

theorem digestBytes_length (d : Digest) : (digestBytes d).length = 64 := rfl

theorem digestBytes_lt (d : Digest) : ∀ b ∈ digestBytes d, b < 256 := by
  intro b hb
  simp only [digestBytes, beBytes, List.mem_append, List.mem_cons, List.mem_nil_iff,
    or_false] at hb
  omega

theorem EncodeToString_digestBytes_length (d : Digest) :
    (EncodeToString (digestBytes d)).length = 88 := rfl

theorem EncodeToString_digestBytes_suffix (d : Digest) :
    EncodeToString (digestBytes d)
      = (EncodeToString (digestBytes d)).take 86 ++ ['=', '='] := rfl

/-! ### Base64 -/

theorem base64Value_base64Char : ∀ i < 64, base64Value (base64Char i) = some i := by
  decide

theorem base64Char_ne_pad : ∀ i < 64, base64Char i ≠ '=' := by
  decide

theorem base64Char_mem : ∀ i < 64, base64Char i ∈ encodeStd := by
  decide

theorem EncodeToString_length (bs : List Nat) :
    (EncodeToString bs).length = 4 * ((bs.length + 2) / 3) := by
  induction bs using EncodeToString.induct with
  | case1 => rfl
  | case2 a => simp [EncodeToString]
  | case3 a b => simp [EncodeToString]
  | case4 a b c rest ih =>
    simp only [EncodeToString, List.length_cons, ih]
    omega

/-- Every character of an encoding is a character of the standard alphabet or the padding
character. -/
theorem EncodeToString_alphabet (bs : List Nat) (hb : ∀ b ∈ bs, b < 256) :
    ∀ c ∈ EncodeToString bs, c ∈ encodeStd ∨ c = '=' := by
  induction bs using EncodeToString.induct with
  | case1 => intro c hc; simp [EncodeToString] at hc
  | case2 a =>
    have ha : a < 256 := hb a (by simp)
    intro c hc
    simp only [EncodeToString, List.mem_cons, List.mem_nil_iff, or_false] at hc
    rcases hc with h | h | h | h
    · left; rw [h]; exact base64Char_mem _ (by omega)
    · left; rw [h]; exact base64Char_mem _ (by omega)
    · right; exact h
    · right; exact h
  | case3 a b =>
    have ha : a < 256 := hb a (by simp)
    have hb2 : b < 256 := hb b (by simp)
    intro c hc
    simp only [EncodeToString, List.mem_cons, List.mem_nil_iff, or_false] at hc
    rcases hc with h | h | h | h
    · left; rw [h]; exact base64Char_mem _ (by omega)
    · left; rw [h]; exact base64Char_mem _ (by omega)
    · left; rw [h]; exact base64Char_mem _ (by omega)
    · right; exact h
  | case4 a b c rest ih =>
    have ha : a < 256 := hb a (by simp)
    have hb2 : b < 256 := hb b (by simp)
    have hc2 : c < 256 := hb c (by simp)
    intro x hx
    simp only [EncodeToString, List.mem_cons] at hx
    rcases hx with h | h | h | h | h
    · left; rw [h]; exact base64Char_mem _ (by omega)
    · left; rw [h]; exact base64Char_mem _ (by omega)
    · left; rw [h]; exact base64Char_mem _ (by omega)
    · left; rw [h]; exact base64Char_mem _ (by omega)
    · exact ih (fun y hy => hb y (by simp [hy])) x h

/-- Decoding an encoding gives the bytes back. -/
theorem DecodeString_EncodeToString (bs : List Nat) (hb : ∀ b ∈ bs, b < 256) :
    DecodeString (EncodeToString bs) = some bs := by
  induction bs using EncodeToString.induct with
  | case1 => rfl
  | case2 a =>
    have ha : a < 256 := hb a (by simp)
    have h1 := base64Value_base64Char (a / 4) (by omega)
    have h2 := base64Value_base64Char (a % 4 * 16) (by omega)
    simp only [EncodeToString, DecodeString, h1, h2]
    have e1 : a % 4 * 16 % 16 = 0 := by omega
    simp [e1]
    omega
  | case3 a b =>
    have ha : a < 256 := hb a (by simp)
    have hb2 : b < 256 := hb b (by simp)
    have h1 := base64Value_base64Char (a / 4) (by omega)
    have h2 := base64Value_base64Char (a % 4 * 16 + b / 16) (by omega)
    have h3 := base64Value_base64Char (b % 16 * 4) (by omega)
    have n3 := base64Char_ne_pad (b % 16 * 4) (by omega)
    simp only [EncodeToString, DecodeString, h1, h2, h3]
    have e1 : b % 16 * 4 % 4 = 0 := by omega
    simp [n3, e1]
    omega
  | case4 a b c rest ih =>
    have ha : a < 256 := hb a (by simp)
    have hb2 : b < 256 := hb b (by simp)
    have hc2 : c < 256 := hb c (by simp)
    have h1 := base64Value_base64Char (a / 4) (by omega)
    have h2 := base64Value_base64Char (a % 4 * 16 + b / 16) (by omega)
    have h3 := base64Value_base64Char (b % 16 * 4 + c / 64) (by omega)
    have h4 := base64Value_base64Char (c % 64) (by omega)
    have n3 := base64Char_ne_pad (b % 16 * 4 + c / 64) (by omega)
    have n4 := base64Char_ne_pad (c % 64) (by omega)
    have ih2 := ih (fun y hy => hb y (by simp [hy]))
    simp only [EncodeToString, DecodeString, h1, h2, h3, h4, ih2]
    simp [n3, n4]
    omega

/-! ### UTF-8 -/

theorem u8_or_toNat (a b : UInt8) : (a ||| b).toNat = a.toNat ||| b.toNat := BitVec.toNat_or ..

theorem u32_toUInt8_toNat (w : UInt32) : w.toUInt8.toNat = w.toNat % 256 := BitVec.toNat_ofNat ..

theorem u32_shr6 (v : UInt32) : (v >>> 6).toNat = v.toNat >>> 6 := rfl

theorem u32_shr12 (v : UInt32) : (v >>> 12).toNat = v.toNat >>> 12 := rfl

theorem u32_shr18 (v : UInt32) : (v >>> 18).toNat = v.toNat >>> 18 := rfl

theorem u32_le_iff (v : UInt32) (k : Nat) (hk : k < 4294967296) :
    v ≤ UInt32.ofNat k ↔ v.toNat ≤ k := by
  rw [UInt32.le_def, BitVec.le_def]
  show v.toNat ≤ (BitVec.ofNat 32 k).toNat ↔ _
  rw [BitVec.toNat_ofNat, Nat.mod_eq_of_lt hk]

theorem mask_or_eq_add (x k base : Nat) (hk : k ≤ 8)
    (hbase : ∀ y < 2 ^ k, y ||| base = base + y) :
    (x % 256 &&& (2 ^ k - 1) ||| base) = base + x % 2 ^ k := by
  rw [Nat.and_pow_two_sub_one_eq_mod, Nat.mod_mod_of_dvd x (Nat.pow_dvd_pow 2 hk)]
  exact hbase _ (Nat.mod_lt _ (Nat.two_pow_pos k))

theorem continuation_byte (x : Nat) : (x % 256 &&& 0x3f ||| 0x80) = 0x80 + x % 64 :=
  mask_or_eq_add x 6 0x80 (by decide) (by decide)

/-- The encoder of the embedding gives, character by character, the bytes of the UTF-8 encoder
of the Lean core library. -/
theorem utf8EncodeChar_eq_core (c : Char) :
    utf8EncodeChar c = (String.utf8EncodeChar c).map UInt8.toNat := by
  have hlt : c.val.toNat < 0x110000 := by
    have := c.valid
    simp [UInt32.isValidChar, Nat.isValidChar] at this
    omega
  have hn : c.toNat = c.val.toNat := rfl
  have s6 : c.val.toNat >>> 6 = c.val.toNat / 64 := Nat.shiftRight_eq_div_pow _ 6
  have s12 : c.val.toNat >>> 12 = c.val.toNat / 4096 := Nat.shiftRight_eq_div_pow _ 12
  have s18 : c.val.toNat >>> 18 = c.val.toNat / 262144 := Nat.shiftRight_eq_div_pow _ 18
  unfold utf8EncodeChar String.utf8EncodeChar
  simp only [hn]
  by_cases h1 : c.val.toNat < 0x80
  · have hc : c.val ≤ 0x7f := (u32_le_iff c.val 0x7f (by decide)).mpr (by omega)
    rw [if_pos h1, if_pos hc]
    simp only [List.map, u32_toUInt8_toNat]
    rw [Nat.mod_eq_of_lt (by omega)]
  · have hc : ¬ c.val ≤ 0x7f :=
      fun h => h1 (by have := (u32_le_iff c.val 0x7f (by decide)).mp h; omega)
    rw [if_neg h1, if_neg hc]
    by_cases h2 : c.val.toNat < 0x800
    · have hc2 : c.val ≤ 0x7ff := (u32_le_iff c.val 0x7ff (by decide)).mpr (by omega)
      rw [if_pos h2, if_pos hc2]
      simp only [List.map, u8_or_toNat, UInt8.and_toNat, u32_toUInt8_toNat, u32_shr6, s6]
      have e1 := mask_or_eq_add (c.val.toNat / 64) 5 0xc0 (by decide) (by decide)
      have e4 : c.val.toNat / 64 % 2 ^ 5 = c.val.toNat / 64 := Nat.mod_eq_of_lt (by omega)
      rw [e4] at e1
      have e2 := continuation_byte c.val.toNat
      exact congrArg₂ (fun a b => [a, b]) e1.symm e2.symm
    · have hc2 : ¬ c.val ≤ 0x7ff :=
        fun h => h2 (by have := (u32_le_iff c.val 0x7ff (by decide)).mp h; omega)
      rw [if_neg h2, if_neg hc2]
      by_cases h3 : c.val.toNat < 0x10000
      · have hc3 : c.val ≤ 0xffff := (u32_le_iff c.val 0xffff (by decide)).mpr (by omega)
        rw [if_pos h3, if_pos hc3]
        simp only [List.map, u8_or_toNat, UInt8.and_toNat, u32_toUInt8_toNat, u32_shr6,
          u32_shr12, s6, s12]
        have e1 := mask_or_eq_add (c.val.toNat / 4096) 4 0xe0 (by decide) (by decide)
        have e4 : c.val.toNat / 4096 % 2 ^ 4 = c.val.toNat / 4096 :=
          Nat.mod_eq_of_lt (by omega)
        rw [e4] at e1
        have e2 := continuation_byte (c.val.toNat / 64)
        have e3 := continuation_byte c.val.toNat
        exact congrArg₂ (fun a l => a :: l) e1.symm
          (congrArg₂ (fun a b => [a, b]) e2.symm e3.symm)
      · have hc3 : ¬ c.val ≤ 0xffff :=
          fun h => h3 (by have := (u32_le_iff c.val 0xffff (by decide)).mp h; omega)
        rw [if_neg h3, if_neg hc3]
        simp only [List.map, u8_or_toNat, UInt8.and_toNat, u32_toUInt8_toNat, u32_shr6,
          u32_shr12, u32_shr18, s6, s12, s18]
        have e1 := mask_or_eq_add (c.val.toNat / 262144) 3 0xf0 (by decide) (by decide)
        have e4 : c.val.toNat / 262144 % 2 ^ 3 = c.val.toNat / 262144 :=
          Nat.mod_eq_of_lt (by omega)
        rw [e4] at e1
        have e2 := continuation_byte (c.val.toNat / 4096)
        have e3 := continuation_byte (c.val.toNat / 64)
        have e5 := continuation_byte c.val.toNat
        exact congrArg₂ (fun a l => a :: l) e1.symm
          (congrArg₂ (fun a l => a :: l) e2.symm
            (congrArg₂ (fun a b => [a, b]) e3.symm e5.symm))

/-- The bytes of a string are the bytes of `String.toUTF8`. -/
theorem stringBytes_eq_toUTF8 (s : String) :
    stringBytes s = s.toUTF8.data.toList.map UInt8.toNat := by
  show s.data.flatMap utf8EncodeChar = (s.data.flatMap String.utf8EncodeChar).map UInt8.toNat
  induction s.data with
  | nil => rfl
  | cons c cs ih =>
    simp only [List.flatMap_cons, List.map_append, ih, utf8EncodeChar_eq_core]

/-! ### Padding -/

theorem fipsZeroBytes_eq (len : Nat) :
    fipsZeroBytes len = (if len % 128 < 112 then 112 - len % 128 else 240 - len % 128) - 1 := by
  have key : ∀ r < 128,
      ((List.range 128).find? (fun z => decide ((r + 1 + z) % 128 = 112))).getD 0
        = (if r < 112 then 112 - r else 240 - r) - 1 := by
    decide!
  have hfun : (fun z => decide ((len + 1 + z) % 128 = 112))
      = (fun z => decide ((len % 128 + 1 + z) % 128 = 112)) := by
    funext z
    have : (len + 1 + z) % 128 = (len % 128 + 1 + z) % 128 := by omega
    rw [this]
  unfold fipsZeroBytes
  rw [hfun]
  exact key (len % 128) (Nat.mod_lt _ (by decide))

/-- The padding of the embedding is the padding of FIPS 180-4. -/
theorem append_sha512Padding_eq_fipsPad (msg : List Nat) :
    msg ++ sha512Padding msg.length = fipsPad msg := by
  unfold sha512Padding fipsPad
  simp only [fipsZeroBytes_eq, List.append_assoc]

/-- The padded message is a whole number of blocks, and the padding is the shortest that makes
it so: it has at least 17 and at most 144 bytes. -/
theorem fipsPad_length (msg : List Nat) :
    (fipsPad msg).length % 128 = 0 ∧
    msg.length + 17 ≤ (fipsPad msg).length ∧ (fipsPad msg).length ≤ msg.length + 144 := by
  rw [← append_sha512Padding_eq_fipsPad]
  simp only [sha512Padding, beBytes, List.length_append, List.length_cons, List.length_replicate,
    List.length_nil]
  split <;> omega

/-! ### The message schedule -/

theorem getD_reverse (w : List Nat) (j : Nat) (hj : j < w.length) :
    w.reverse.getD j 0 = w.getD (w.length - 1 - j) 0 := by
  rw [List.getD_eq_getElem?_getD, List.getD_eq_getElem?_getD, List.getElem?_reverse hj]

theorem fipsSchedule_length (msg : List Nat) (i t : Nat) : (fipsSchedule msg i t).length = t := by
  induction t with
  | zero => rfl
  | succ n ih => simp [fipsSchedule, ih]

theorem blockWords_eq (n : Nat) (q : List Nat) :
    blockWords n q = (List.range n).map (fun t => beValue ((q.drop (8 * t)).take 8)) := by
  induction n generalizing q with
  | zero => rfl
  | succ k ih =>
    rw [blockWords, ih, List.range_succ_eq_map, List.map_cons, List.map_map]
    congr 1
    apply List.map_congr_left
    intro t _
    simp only [Function.comp, List.drop_drop]
    congr 3
    omega

theorem block_word (msg : List Nat) (i t : Nat) (ht : t < 16) :
    beValue ((((msg.drop (128 * i)).take 128).drop (8 * t)).take 8) = fipsBlockWord msg i t := by
  unfold fipsBlockWord
  rw [List.drop_take, List.take_take, List.drop_drop]
  have hmin : min 8 (128 - 8 * t) = 8 := by omega
  rw [hmin]

theorem fipsSchedule_first_words (msg : List Nat) (i t : Nat) (ht : t ≤ 16) :
    fipsSchedule msg i t = (List.range t).map (fipsBlockWord msg i) := by
  induction t with
  | zero => rfl
  | succ n ih =>
    have hn : n < 16 := by omega
    simp only [fipsSchedule, hn, if_true, List.range_succ, List.map_append, List.map_cons,
      List.map_nil]
    rw [ih (by omega)]

theorem blockWords_block (msg : List Nat) (i : Nat) :
    blockWords 16 ((msg.drop (128 * i)).take 128) = fipsSchedule msg i 16 := by
  rw [blockWords_eq, fipsSchedule_first_words msg i 16 (Nat.le_refl _)]
  apply List.map_congr_left
  intro t ht
  exact block_word msg i t (List.mem_range.mp ht)

theorem add_mod_chain (a b c d : Nat) :
    (a + b + c + d) % word = fipsAdd (fipsAdd (fipsAdd a b) c) d := by
  unfold fipsAdd word
  omega

theorem scheduleNext_reverse (w : List Nat) (hw : 16 ≤ w.length) :
    scheduleNext w.reverse
      = fipsAdd (fipsAdd (fipsAdd (fipsSmallSigma1 (w.getD (w.length - 2) 0))
            (w.getD (w.length - 7) 0)) (fipsSmallSigma0 (w.getD (w.length - 15) 0)))
          (w.getD (w.length - 16) 0) := by
  have hl : w.reverse.length = w.length := List.length_reverse w
  have e1 : w.reverse.getD 1 0 = w.getD (w.length - 2) 0 := by
    rw [getD_reverse w 1 (by omega)]
    congr 1
  have e6 : w.reverse.getD 6 0 = w.getD (w.length - 7) 0 := by
    rw [getD_reverse w 6 (by omega)]
    congr 1
  have e14 : w.reverse.getD 14 0 = w.getD (w.length - 15) 0 := by
    rw [getD_reverse w 14 (by omega)]
    congr 1
  have e15 : w.reverse.getD 15 0 = w.getD (w.length - 16) 0 := by
    rw [getD_reverse w 15 (by omega)]
    congr 1
  simp only [scheduleNext, e1, e6, e14, e15]
  exact add_mod_chain _ _ _ _

theorem fipsSchedule_succ_reverse (msg : List Nat) (i m : Nat) :
    (fipsSchedule msg i (16 + m + 1)).reverse
      = scheduleNext (fipsSchedule msg i (16 + m)).reverse
          :: (fipsSchedule msg i (16 + m)).reverse := by
  have hlen := fipsSchedule_length msg i (16 + m)
  have hge : ¬ (16 + m < 16) := by omega
  rw [scheduleNext_reverse _ (by omega), hlen]
  simp only [fipsSchedule, hge, if_false, List.reverse_append, List.reverse_cons,
    List.reverse_nil, List.nil_append, List.singleton_append]

theorem scheduleExtend_fipsSchedule (msg : List Nat) (i n m : Nat) :
    scheduleExtend n (fipsSchedule msg i (16 + m)).reverse
      = (fipsSchedule msg i (16 + m + n)).reverse := by
  induction n generalizing m with
  | zero => rfl
  | succ k ih =>
    have h1 := ih (m + 1)
    have e : 16 + (m + 1) + k = 16 + m + (k + 1) := by omega
    rw [e] at h1
    rw [scheduleExtend, ← fipsSchedule_succ_reverse]
    exact h1

/-- The schedule the embedding computes for block `i` is the schedule of FIPS 180-4. -/
theorem schedule_block (msg : List Nat) (i : Nat) :
    schedule ((msg.drop (128 * i)).take 128) = fipsSchedule msg i 80 := by
  unfold schedule
  rw [blockWords_block]
  have h := scheduleExtend_fipsSchedule msg i 64 0
  rw [h, List.reverse_reverse]

/-! ### The compression function and the blocks -/

theorem add_mod_chain5 (a b c d e : Nat) :
    (a + b + c + d + e) % word = fipsAdd (fipsAdd (fipsAdd (fipsAdd a b) c) d) e := by
  unfold fipsAdd word
  omega

theorem sha512Round_eq_fipsStep (s : Digest) (k w : Nat) :
    sha512Round s k w = fipsStep s k w := by
  unfold sha512Round fipsStep fipsBigSigma0 fipsBigSigma1 fipsCh fipsMaj
  simp only [add_mod_chain5]
  rfl

theorem fipsVars_cons (k w : Nat) (ks ws : List Nat) (s : Digest) (t : Nat) :
    fipsVars (k :: ks) (w :: ws) s (t + 1) = fipsVars ks ws (fipsStep s k w) t := by
  induction t with
  | zero => rfl
  | succ n ih =>
    show fipsStep (fipsVars (k :: ks) (w :: ws) s (n + 1)) ((k :: ks).getD (n + 1) 0)
        ((w :: ws).getD (n + 1) 0) = fipsStep (fipsVars ks ws (fipsStep s k w) n) (ks.getD n 0)
        (ws.getD n 0)
    rw [ih]
    rfl

theorem sha512Rounds_eq_fipsVars (ks ws : List Nat) (s : Digest) (hlen : ks.length = ws.length) :
    sha512Rounds s ks ws = fipsVars ks ws s ks.length := by
  induction ks generalizing ws s with
  | nil => cases ws <;> rfl
  | cons k ks ih =>
    cases ws with
    | nil => simp at hlen
    | cons w ws =>
      have hl : ks.length = ws.length := by simpa using hlen
      rw [sha512Rounds, ih ws _ hl, sha512Round_eq_fipsStep, List.length_cons, fipsVars_cons]

theorem sha512K_length : sha512K.length = 80 := by decide

theorem sha512Block_eq_fipsHash (msg : List Nat) (i : Nat) :
    sha512Block (fipsHash msg i) ((msg.drop (128 * i)).take 128) = fipsHash msg (i + 1) := by
  have hlen : sha512K.length = (fipsSchedule msg i 80).length := by
    rw [sha512K_length, fipsSchedule_length]
  unfold sha512Block
  rw [schedule_block, sha512Rounds_eq_fipsVars _ _ _ hlen, sha512K_length]
  simp only [fipsHash, fipsAdd, Nat.add_comm]

theorem sha512Blocks_eq_fipsHash (msg : List Nat) (n i : Nat) :
    sha512Blocks n (fipsHash msg i) (msg.drop (128 * i)) = fipsHash msg (i + n) := by
  induction n generalizing i with
  | zero => rfl
  | succ k ih =>
    have hdrop : (msg.drop (128 * i)).drop 128 = msg.drop (128 * (i + 1)) := by
      rw [List.drop_drop]
      congr 1
    have e : i + 1 + k = i + (k + 1) := by omega
    rw [sha512Blocks, sha512Block_eq_fipsHash, hdrop, ih (i + 1), e]

/-- The digest the embedding computes is the message digest of FIPS 180-4. -/
theorem Sum512_eq_fipsSum512 (data : List Nat) : Sum512 data = fipsSum512 data := by
  unfold Sum512 fipsSum512
  simp only [append_sha512Padding_eq_fipsPad]
  have h := sha512Blocks_eq_fipsHash (fipsPad data) ((fipsPad data).length / 128) 0
  simp only [Nat.mul_zero, List.drop_zero, Nat.zero_add] at h
  exact congrArg digestBytes h

/-! ### Test vectors -/

/-- The one-block message `abc` of the FIPS 180 examples. -/
theorem Sum512_abc :
    Sum512 (stringBytes "abc")
      = [0xdd, 0xaf, 0x35, 0xa1, 0x93, 0x61, 0x7a, 0xba, 0xcc, 0x41, 0x73, 0x49,
         0xae, 0x20, 0x41, 0x31, 0x12, 0xe6, 0xfa, 0x4e, 0x89, 0xa9, 0x7e, 0xa2,
         0x0a, 0x9e, 0xee, 0xe6, 0x4b, 0x55, 0xd3, 0x9a, 0x21, 0x92, 0x99, 0x2a,
         0x27, 0x4f, 0xc1, 0xa8, 0x36, 0xba, 0x3c, 0x23, 0xa3, 0xfe, 0xeb, 0xbd,
         0x45, 0x4d, 0x44, 0x23, 0x64, 0x3c, 0xe8, 0x0e, 0x2a, 0x9a, 0xc9, 0x4f,
         0xa5, 0x4c, 0xa4, 0x9f] := by
  decide!

/-- The empty message. -/
theorem GenerateHash_empty :
    GenerateHash ""
      = "z4PhNX7vuL3xVChQ1m2AB9Yg5AULVxXcg/SpIdNs6c5H0NE8XYXysP+DGNKHfuwvY7kxvUdBeoGlODJ6+SfaPg==" := by
  decide!

/-- The two-block message of 112 bytes of the FIPS 180 examples. -/
theorem GenerateHash_nist_two_blocks :
    GenerateHash
        "abcdefghbcdefghicdefghijdefghijkefghijklfghijklmghijklmnhijklmnoijklmnopjklmnopqklmnopqrlmnopqrsmnopqrstnopqrstu"
      = "jpWbddrjE9qM9PcoFPwUP493ecbrn3+hcpmurbaIkBhQHSieSQD35DMbmd7EtUM6x9Mp7rbdJlReluVbh0vpCQ==" := by
  decide!

/-- A string with characters of two, three and four bytes. -/
theorem GenerateHash_non_ascii :
    GenerateHash "héllo€😀"
      = "u01Nhqu3KOcW7ne49vLD51HddeMDUggY+dTHGSZBJ5+4GSbSm2ZLoJ51OFY7WvUUz8HsDY0zvJCmJZos2ZhcHA==" := by
  decide!

/-- A Go string that is not valid UTF-8: the single byte `0xff`. -/
theorem GenerateHashBytes_ff :
    GenerateHashBytes [0xff]
      = "ZwDfZgCxGKsEMnFafoposL83zfStrw+54rPr4ErRnHAyy61V6TJ5KvNguvqgmWLi5pBlK8B1strQwwaIui8xow==" := by
  decide!

/-! ### The claim about `GenerateHash` -/

theorem GenerateHashBytes_data (bs : List Nat) :
    (GenerateHashBytes bs).data = EncodeToString (fipsSum512 bs) := by
  show EncodeToString (Sum512 bs) = EncodeToString (fipsSum512 bs)
  rw [Sum512_eq_fipsSum512]

theorem fipsSum512_lt (bs : List Nat) : ∀ b ∈ fipsSum512 bs, b < 256 :=
  digestBytes_lt _

/-- C7. For every Go string, given as its bytes `bs` (valid UTF-8 or not), `GenerateHash` returns
the padded standard Base64 encoding of the SHA-512 message digest of `bs` as FIPS 180-4 defines
it (padding to whole blocks, message schedule, 80 steps per block): the digest has 64 bytes, the
result decodes back to the digest with the decoder of RFC 4648, has exactly 88 characters and
ends in `==`. On a string that is text the bytes hashed are its UTF-8 encoding, the one of
`String.toUTF8`; so the result depends on the bytes of `s` alone. Base64 is pinned on all byte
sequences by decoding, length and alphabet, SHA-512 by the examples of FIPS 180 and the values
of the repository's test, among them `angryMonkey`. -/
theorem C7_generateHash_base64_of_sha512 :
    (∀ bs : List Nat,
        Sum512 bs = fipsSum512 bs ∧
        (fipsPad bs).length % 128 = 0 ∧
        bs.length + 17 ≤ (fipsPad bs).length ∧ (fipsPad bs).length ≤ bs.length + 144 ∧
        (fipsSum512 bs).length = 64 ∧
        (∀ b ∈ fipsSum512 bs, b < 256) ∧
        (GenerateHashBytes bs).data = EncodeToString (fipsSum512 bs) ∧
        DecodeString (GenerateHashBytes bs).data = some (fipsSum512 bs) ∧
        (GenerateHashBytes bs).length = 88 ∧
        (∃ body : String, body.length = 86 ∧ GenerateHashBytes bs = body ++ "==")) ∧
    (∀ s : String,
        stringBytes s = s.toUTF8.data.toList.map UInt8.toNat ∧
        GenerateHash s = GenerateHashBytes (s.toUTF8.data.toList.map UInt8.toNat)) ∧
    (∀ bs : List Nat, (∀ b ∈ bs, b < 256) →
        DecodeString (EncodeToString bs) = some bs ∧
        (EncodeToString bs).length = 4 * ((bs.length + 2) / 3) ∧
        (∀ c ∈ EncodeToString bs, c ∈ encodeStd ∨ c = '=')) ∧
    GenerateHash "angryMonkey"
      = "ZEHhWB65gUlzdVwtDQArEyx+KVLzp/aTaRaPlBzYRIFj6vjFdqEb0Q5B8zVKCZ0vKbZPZklJz0Fd7su2A+gf7Q==" ∧
    GenerateHash "baloo1"
      = "74YskF/4/vdsObP1fBbGzZHVzIWKtBkpz0QotXEvGW5087z1MxwbwOc7dsxLZ98TBPAP1LIIdCOb0AsyESuQhw==" ∧
    Sum512 (stringBytes "abc")
      = [0xdd, 0xaf, 0x35, 0xa1, 0x93, 0x61, 0x7a, 0xba, 0xcc, 0x41, 0x73, 0x49,
         0xae, 0x20, 0x41, 0x31, 0x12, 0xe6, 0xfa, 0x4e, 0x89, 0xa9, 0x7e, 0xa2,
         0x0a, 0x9e, 0xee, 0xe6, 0x4b, 0x55, 0xd3, 0x9a, 0x21, 0x92, 0x99, 0x2a,
         0x27, 0x4f, 0xc1, 0xa8, 0x36, 0xba, 0x3c, 0x23, 0xa3, 0xfe, 0xeb, 0xbd,
         0x45, 0x4d, 0x44, 0x23, 0x64, 0x3c, 0xe8, 0x0e, 0x2a, 0x9a, 0xc9, 0x4f,
         0xa5, 0x4c, 0xa4, 0x9f] ∧
    GenerateHash ""
      = "z4PhNX7vuL3xVChQ1m2AB9Yg5AULVxXcg/SpIdNs6c5H0NE8XYXysP+DGNKHfuwvY7kxvUdBeoGlODJ6+SfaPg==" ∧
    GenerateHash
        "abcdefghbcdefghicdefghijdefghijkefghijklfghijklmghijklmnhijklmnoijklmnopjklmnopqklmnopqrlmnopqrsmnopqrstnopqrstu"
      = "jpWbddrjE9qM9PcoFPwUP493ecbrn3+hcpmurbaIkBhQHSieSQD35DMbmd7EtUM6x9Mp7rbdJlReluVbh0vpCQ==" ∧
    GenerateHash "héllo€😀"
      = "u01Nhqu3KOcW7ne49vLD51HddeMDUggY+dTHGSZBJ5+4GSbSm2ZLoJ51OFY7WvUUz8HsDY0zvJCmJZos2ZhcHA==" ∧
    GenerateHashBytes [0xff]
      = "ZwDfZgCxGKsEMnFafoposL83zfStrw+54rPr4ErRnHAyy61V6TJ5KvNguvqgmWLi5pBlK8B1strQwwaIui8xow==" := by
  refine ⟨?_, ?_, ?_, GenerateHash_angryMonkey, GenerateHash_baloo1, Sum512_abc,
    GenerateHash_empty, GenerateHash_nist_two_blocks, GenerateHash_non_ascii,
    GenerateHashBytes_ff⟩
  · intro bs
    obtain ⟨hp1, hp2, hp3⟩ := fipsPad_length bs
    refine ⟨Sum512_eq_fipsSum512 bs, hp1, hp2, hp3, digestBytes_length _, fipsSum512_lt bs,
      GenerateHashBytes_data bs, ?_, ?_, ?_⟩
    · rw [GenerateHashBytes_data]
      exact DecodeString_EncodeToString _ (fipsSum512_lt bs)
    · show ((GenerateHashBytes bs).data).length = 88
      rw [GenerateHashBytes_data]
      exact EncodeToString_digestBytes_length _
    · refine ⟨String.mk ((EncodeToString (fipsSum512 bs)).take 86), ?_, ?_⟩
      · show ((EncodeToString (fipsSum512 bs)).take 86).length = 86
        rw [List.length_take]
        have := EncodeToString_digestBytes_length
          (fipsHash (fipsPad bs) ((fipsPad bs).length / 128))
        simp only [fipsSum512]
        omega
      · have hd : GenerateHashBytes bs = String.mk (EncodeToString (fipsSum512 bs)) :=
          congrArg String.mk (GenerateHashBytes_data bs)
        rw [hd]
        show String.mk (EncodeToString (fipsSum512 bs))
            = String.mk ((EncodeToString (fipsSum512 bs)).take 86 ++ ['=', '='])
        exact congrArg String.mk (EncodeToString_digestBytes_suffix _)
  · intro s
    refine ⟨stringBytes_eq_toUTF8 s, ?_⟩
    show GenerateHashBytes (stringBytes s) = _
    rw [stringBytes_eq_toUTF8]
  · intro bs hb
    exact ⟨DecodeString_EncodeToString bs hb, EncodeToString_length bs,
      EncodeToString_alphabet bs hb⟩

/-- Instance of C7: two bytes, the case of one padding character, are encoded as `+/8=` in the
standard alphabet and decoded back. -/
theorem C7_generateHash_base64_of_sha512_witness :
    DecodeString (EncodeToString [251, 255]) = some [251, 255] ∧
    (EncodeToString [251, 255]).length = 4 * ((([251, 255] : List Nat).length + 2) / 3) ∧
    (∀ c ∈ EncodeToString [251, 255], c ∈ encodeStd ∨ c = '=') ∧
    EncodeToString [251, 255] = ['+', '/', '8', '='] :=
  ⟨(C7_generateHash_base64_of_sha512.2.2.1 [251, 255] (by decide)).1,
   (C7_generateHash_base64_of_sha512.2.2.1 [251, 255] (by decide)).2.1,
   (C7_generateHash_base64_of_sha512.2.2.1 [251, 255] (by decide)).2.2,
   by decide⟩

end hasher
